import Mathlib

/-!
Verification of the consensus diff engine (`modules/consensus/diffs.go`).

The Go source mutates a `ConsensusSet` that combines a persistent bolt
database (sorted key/value buckets) with a few in-memory maps.  Both kinds
of store are extensional key → value maps, so each table is embedded as a
Mathlib `Finmap` over `Nat` keys; `Finmap` equality is exactly the
"bit-identical" state equality of the specification.  `build.DEBUG` is
modelled as `true`: every debug panic in the source becomes an explicit
error value, and each commit function returns `Except CError ConsensusSet`
instead of mutating in place.  Unbounded `types.Currency` values are `Nat`.
-/

namespace Siad

/-- `types.Currency`: an unbounded unsigned big integer. -/
abbrev Currency := Nat

/-- `types.BlockHeight` (`uint64`); heights stay far from overflow, so `Nat`. -/
abbrev BlockHeight := Nat

/-- Content-hash identifiers (block ids, output ids, contract ids). -/
abbrev Ident := Nat

/-- `modules.DiffDirection`. -/
inductive DiffDirection where
  | apply : DiffDirection
  | revert : DiffDirection
deriving DecidableEq, Repr

/-- `types.SiacoinOutput`. -/
structure SiacoinOutput where
  value : Currency
  unlockHash : Nat
deriving DecidableEq, Repr

/-- `types.FileContract` (the fields the diff engine reads). -/
structure FileContract where
  payout : Currency
  windowStart : BlockHeight
  windowEnd : BlockHeight
  missedProofOutputs : List (Ident × SiacoinOutput)
deriving DecidableEq, Repr

/-- `types.SiafundOutput`. -/
structure SiafundOutput where
  value : Currency
  claimStart : Currency
deriving DecidableEq, Repr

/-- `modules.SiacoinOutputDiff`. -/
structure SiacoinOutputDiff where
  direction : DiffDirection
  id : Ident
  siacoinOutput : SiacoinOutput
deriving DecidableEq, Repr

/-- `modules.FileContractDiff`. -/
structure FileContractDiff where
  direction : DiffDirection
  id : Ident
  fileContract : FileContract
deriving DecidableEq, Repr

/-- `modules.SiafundOutputDiff`. -/
structure SiafundOutputDiff where
  direction : DiffDirection
  id : Ident
  siafundOutput : SiafundOutput
deriving DecidableEq, Repr

/-- `modules.DelayedSiacoinOutputDiff`. -/
structure DelayedSiacoinOutputDiff where
  direction : DiffDirection
  id : Ident
  siacoinOutput : SiacoinOutput
  maturityHeight : BlockHeight
deriving DecidableEq, Repr

/-- `modules.SiafundPoolDiff`. -/
structure SiafundPoolDiff where
  direction : DiffDirection
  previous : Currency
  adjusted : Currency
deriving DecidableEq, Repr

/-- Modelled from the spec: a transaction carries references to spent coin
outputs, new coin outputs and miner fees (`TxValidator` §4.3 and
`applyTransaction` are not part of the sources under verification). -/
structure Transaction where
  siacoinInputs : List Ident
  siacoinOutputs : List (Ident × SiacoinOutput)
  minerFees : Currency
deriving DecidableEq, Repr

/-- `types.Block`: the fields the diff engine reads. -/
structure Block where
  id : Ident
  transactions : List Transaction
  minerPayouts : List (Ident × SiacoinOutput)
deriving DecidableEq, Repr

/-- A per-height bucket of delayed siacoin outputs. -/
abbrev Bucket := Finmap (fun _ : Ident => SiacoinOutput)

/-- The siacoin output table (`CoinOutputs`). -/
abbrev SCTable := Finmap (fun _ : Ident => SiacoinOutput)

/-- The file contract table. -/
abbrev FCTable := Finmap (fun _ : Ident => FileContract)

/-- The siafund output table. -/
abbrev SFTable := Finmap (fun _ : Ident => SiafundOutput)

/-- The delayed siacoin output table: height → bucket. -/
abbrev DSCTable := Finmap (fun _ : BlockHeight => Bucket)

/-- File contract expirations: window end → set of contract ids. -/
abbrev FCETable := Finmap (fun _ : BlockHeight => Finset Ident)

/-- `processedBlock`: a block plus its generated diff set. -/
structure processedBlock where
  block : Block
  parent : Ident
  height : BlockHeight
  diffsGenerated : Bool
  siacoinOutputDiffs : List SiacoinOutputDiff
  fileContractDiffs : List FileContractDiff
  siafundOutputDiffs : List SiafundOutputDiff
  delayedSiacoinOutputDiffs : List DelayedSiacoinOutputDiff
  siafundPoolDiffs : List SiafundPoolDiff
deriving DecidableEq, Repr

/-- The block map: block id → processed block. -/
abbrev BlockMap := Finmap (fun _ : Ident => processedBlock)

/-- `types.MaturityDelay` (a fixed positive constant; its exact value is
irrelevant to every claim). -/
def MaturityDelay : BlockHeight := 144

/-- The `ConsensusSet` state: the bolt-database tables (`db` prefix in the
source is kept as a `db` name prefix here) together with the in-memory maps
and scalars the diff engine mutates. -/
structure ConsensusSet where
  updateDatabase : Bool
  dbSiacoinOutputs : SCTable
  dbFileContracts : FCTable
  dbSiafundOutputs : SFTable
  dbDelayedSiacoinOutputs : DSCTable
  dbFCExpirations : FCETable
  dbPath : List Ident
  dbBlockMap : BlockMap
  fileContractExpirations : FCETable
  siafundPool : Currency
  blocksLoaded : Int
  dosBlocks : Finset Ident
deriving DecidableEq

/-- Every error the diff engine can surface: the `errors.New` values of
`diffs.go`, plus the Go runtime panics (nil-map write, nil pointer) and the
storage failures that the database layer may return. -/
inductive CError where
  | applySiafundPoolDiffMismatch
  | badCommitSiacoinOutputDiff
  | badCommitFileContractDiff
  | badCommitSiafundOutputDiff
  | badCommitDelayedSiacoinOutputDiff
  | badExpirationPointer
  | badMaturityHeight
  | creatingExistingUpcomingMap
  | deletingNonEmptyDelayedMap
  | diffsNotGenerated
  | existingFileContractExpiration
  | invalidSuccessor
  | negativePoolAdjustment
  | nonApplySiafundPoolDiff
  | regenerateDiffs
  | revertSiafundPoolDiffMismatch
  | wrongAppliedDiffSet
  | wrongRevertDiffSet
  | nilMapWrite
  | missingBlockMapEntry
  | missingDelayedBucket
  | missingFileContract
  | pushPathFailed
  | popPathFailed
  | rmBlockMapFailed
  | addBlockMapFailed
  | unknownInput
  | doubleSpend
  | valueMismatch
deriving DecidableEq, Repr

/-- Modelled from the spec: the database primitives (`cs.db.pushPath`,
`cs.db.rmBlockMap`, `cs.db.addBlockMap`) may return transient storage
errors (§4.1 "Any operation may return a fatal storage error").  The
environment decides, per block id, whether each primitive fails. -/
structure DbEnv where
  pushPathErr : Ident → Bool
  rmBlockMapErr : Ident → Bool
  addBlockMapErr : Ident → Bool

/-- The benign environment: no storage failures. -/
def DbEnv.ok : DbEnv := ⟨fun _ => false, fun _ => false, fun _ => false⟩

namespace ConsensusSet

/-- `cs.currentBlockID()`: the last id of the current path (`none` on an
empty path, where the source would crash). -/
def currentBlockID (cs : ConsensusSet) : Option Ident := cs.dbPath.getLast?

/-- `cs.db.inFCExpirationsHeight(w, id)`. -/
def inFCExpirationsHeight (cs : ConsensusSet) (w : BlockHeight) (id : Ident) : Bool :=
  match cs.dbFCExpirations.lookup w with
  | none => false
  | some bucket => id ∈ bucket

/-- `cs.db.lenDelayedSiacoinOutputsHeight(h)`: the number of entries in the
bucket at height `h` (0 when the bucket is absent). -/
def lenDelayedSiacoinOutputsHeight (cs : ConsensusSet) (h : BlockHeight) : Nat :=
  match cs.dbDelayedSiacoinOutputs.lookup h with
  | none => 0
  | some bucket => bucket.entries.card

end ConsensusSet

/-- `commitSiacoinOutputDiff` (diffs.go:38). -/
def commitSiacoinOutputDiff (cs : ConsensusSet) (scod : SiacoinOutputDiff)
    (dir : DiffDirection) : Except CError ConsensusSet :=
  if !cs.updateDatabase then .ok cs
  else if (scod.id ∈ cs.dbSiacoinOutputs) = (scod.direction = dir) then
    .error .badCommitSiacoinOutputDiff
  else if scod.direction = dir then
    .ok { cs with dbSiacoinOutputs := cs.dbSiacoinOutputs.insert scod.id scod.siacoinOutput }
  else
    .ok { cs with dbSiacoinOutputs := cs.dbSiacoinOutputs.erase scod.id }

/-- `commitFileContractDiff` (diffs.go:59).  Writing through the nil
in-memory bucket (`cs.fileContractExpirations[w][id] = struct{}{}` with no
bucket at `w`) is a Go runtime panic, modelled as `.error .nilMapWrite`;
`delete` on a missing bucket is a no-op, as in Go. -/
def commitFileContractDiff (cs : ConsensusSet) (fcd : FileContractDiff)
    (dir : DiffDirection) : Except CError ConsensusSet :=
  if ((fcd.id ∈ cs.dbFileContracts) = (fcd.direction = dir)) && cs.updateDatabase then
    .error .badCommitFileContractDiff
  else if fcd.direction = dir then
    let w := fcd.fileContract.windowEnd
    let cs1 :=
      if cs.updateDatabase then
        { cs with dbFileContracts := cs.dbFileContracts.insert fcd.id fcd.fileContract }
      else cs
    let cs2 :=
      if !(w ∈ cs1.dbFCExpirations) && cs1.updateDatabase then
        { cs1 with
          fileContractExpirations := cs1.fileContractExpirations.insert w ∅,
          dbFCExpirations := cs1.dbFCExpirations.insert w ∅ }
      else cs1
    if cs2.inFCExpirationsHeight w fcd.id then
      .error .existingFileContractExpiration
    else
      match cs2.fileContractExpirations.lookup w with
      | none => .error .nilMapWrite
      | some bucket =>
        let cs3 := { cs2 with
          fileContractExpirations := cs2.fileContractExpirations.insert w (insert fcd.id bucket) }
        .ok <|
          if cs3.updateDatabase then
            { cs3 with
              dbFCExpirations :=
                match cs3.dbFCExpirations.lookup w with
                | none => cs3.dbFCExpirations
                | some dbBucket => cs3.dbFCExpirations.insert w (insert fcd.id dbBucket) }
          else cs3
  else
    let w := fcd.fileContract.windowEnd
    let cs1 :=
      if cs.updateDatabase then
        { cs with dbFileContracts := cs.dbFileContracts.erase fcd.id }
      else cs
    if cs1.updateDatabase && !(w ∈ cs1.dbFCExpirations) then
      .error .badExpirationPointer
    else if cs1.updateDatabase && !(cs1.inFCExpirationsHeight w fcd.id) then
      .error .badExpirationPointer
    else
      let cs2 := { cs1 with
        fileContractExpirations :=
          match cs1.fileContractExpirations.lookup w with
          | none => cs1.fileContractExpirations
          | some bucket => cs1.fileContractExpirations.insert w (bucket.erase fcd.id) }
      .ok <|
        if cs2.updateDatabase then
          { cs2 with
            dbFCExpirations :=
              match cs2.dbFCExpirations.lookup w with
              | none => cs2.dbFCExpirations
              | some dbBucket => cs2.dbFCExpirations.insert w (dbBucket.erase fcd.id) }
        else cs2

/-- `commitSiafundOutputDiff` (diffs.go:118). -/
def commitSiafundOutputDiff (cs : ConsensusSet) (sfod : SiafundOutputDiff)
    (dir : DiffDirection) : Except CError ConsensusSet :=
  if !cs.updateDatabase then .ok cs
  else if (sfod.id ∈ cs.dbSiafundOutputs) = (sfod.direction = dir) then
    .error .badCommitSiafundOutputDiff
  else if sfod.direction = dir then
    .ok { cs with dbSiafundOutputs := cs.dbSiafundOutputs.insert sfod.id sfod.siafundOutput }
  else
    .ok { cs with dbSiafundOutputs := cs.dbSiafundOutputs.erase sfod.id }

/-- `commitDelayedSiacoinOutputDiff` (diffs.go:143). -/
def commitDelayedSiacoinOutputDiff (cs : ConsensusSet) (dscod : DelayedSiacoinOutputDiff)
    (dir : DiffDirection) : Except CError ConsensusSet :=
  if !cs.updateDatabase then .ok cs
  else
    match cs.dbDelayedSiacoinOutputs.lookup dscod.maturityHeight with
    | none => .error .badMaturityHeight
    | some bucket =>
      if (dscod.id ∈ bucket) = (dscod.direction = dir) then
        .error .badCommitDelayedSiacoinOutputDiff
      else if dscod.direction = dir then
        .ok { cs with
              dbDelayedSiacoinOutputs :=
                cs.dbDelayedSiacoinOutputs.insert dscod.maturityHeight
                  (bucket.insert dscod.id dscod.siacoinOutput) }
      else
        .ok { cs with
              dbDelayedSiacoinOutputs :=
                cs.dbDelayedSiacoinOutputs.insert dscod.maturityHeight
                  (bucket.erase dscod.id) }

/-- `commitSiafundPoolDiff` (diffs.go:168). -/
def commitSiafundPoolDiff (cs : ConsensusSet) (sfpd : SiafundPoolDiff)
    (dir : DiffDirection) : Except CError ConsensusSet :=
  if sfpd.adjusted < sfpd.previous then .error .negativePoolAdjustment
  else if sfpd.direction ≠ .apply then .error .nonApplySiafundPoolDiff
  else if dir = .apply then
    if cs.siafundPool ≠ sfpd.previous then .error .applySiafundPoolDiffMismatch
    else .ok { cs with siafundPool := sfpd.adjusted }
  else
    if cs.siafundPool ≠ sfpd.adjusted then .error .revertSiafundPoolDiffMismatch
    else .ok { cs with siafundPool := sfpd.previous }

/-- `commitDiffSetSanity` (diffs.go:200): debug checks before a commit.
`cs.db.getBlockMap` on a missing key is a nil-pointer crash in Go,
modelled as `.error .missingBlockMapEntry`. -/
def commitDiffSetSanity (cs : ConsensusSet) (pb : processedBlock)
    (dir : DiffDirection) : Except CError Unit :=
  if !pb.diffsGenerated then .error .diffsNotGenerated
  else if dir = .apply then
    match cs.dbBlockMap.lookup pb.parent with
    | none => .error .missingBlockMapEntry
    | some parent =>
      if some parent.block.id ≠ cs.currentBlockID then .error .wrongAppliedDiffSet
      else .ok ()
  else
    if some pb.block.id ≠ cs.currentBlockID then .error .wrongRevertDiffSet
    else .ok ()

/-- `createUpcomingDelayedOutputMaps` (diffs.go:225). -/
def createUpcomingDelayedOutputMaps (cs : ConsensusSet) (pb : processedBlock)
    (dir : DiffDirection) : Except CError ConsensusSet :=
  if !cs.updateDatabase then .ok cs
  else if dir = .apply then
    if (pb.height + MaturityDelay) ∈ cs.dbDelayedSiacoinOutputs then
      .error .creatingExistingUpcomingMap
    else
      .ok { cs with dbDelayedSiacoinOutputs :=
              cs.dbDelayedSiacoinOutputs.insert (pb.height + MaturityDelay) ∅ }
  else
    if pb.height > MaturityDelay then
      if pb.height ∈ cs.dbDelayedSiacoinOutputs then
        .error .creatingExistingUpcomingMap
      else
        .ok { cs with dbDelayedSiacoinOutputs :=
                cs.dbDelayedSiacoinOutputs.insert pb.height ∅ }
    else .ok cs

/-- Sequentially commit a list of diffs with one of the per-diff commit
functions, stopping at the first error (a Go panic aborts the loop). -/
def commitList {α : Type}
    (f : ConsensusSet → α → DiffDirection → Except CError ConsensusSet)
    (cs : ConsensusSet) (l : List α) (dir : DiffDirection) :
    Except CError ConsensusSet :=
  match l with
  | [] => .ok cs
  | d :: t =>
    match f cs d dir with
    | .error e => .error e
    | .ok cs1 => commitList f cs1 t dir

/-- `commitNodeDiffs` (diffs.go:256): forward order on `Apply`, each list
reverse-iterated on `Revert`, the five lists taken in the category order
{siacoin, file contract, siafund, delayed siacoin, siafund pool} in both
directions. -/
def commitNodeDiffs (cs : ConsensusSet) (pb : processedBlock)
    (dir : DiffDirection) : Except CError ConsensusSet :=
  if dir = .apply then
    match commitList commitSiacoinOutputDiff cs pb.siacoinOutputDiffs dir with
    | .error e => .error e
    | .ok cs1 =>
    match commitList commitFileContractDiff cs1 pb.fileContractDiffs dir with
    | .error e => .error e
    | .ok cs2 =>
    match commitList commitSiafundOutputDiff cs2 pb.siafundOutputDiffs dir with
    | .error e => .error e
    | .ok cs3 =>
    match commitList commitDelayedSiacoinOutputDiff cs3 pb.delayedSiacoinOutputDiffs dir with
    | .error e => .error e
    | .ok cs4 => commitList commitSiafundPoolDiff cs4 pb.siafundPoolDiffs dir
  else
    match commitList commitSiacoinOutputDiff cs pb.siacoinOutputDiffs.reverse dir with
    | .error e => .error e
    | .ok cs1 =>
    match commitList commitFileContractDiff cs1 pb.fileContractDiffs.reverse dir with
    | .error e => .error e
    | .ok cs2 =>
    match commitList commitSiafundOutputDiff cs2 pb.siafundOutputDiffs.reverse dir with
    | .error e => .error e
    | .ok cs3 =>
    match commitList commitDelayedSiacoinOutputDiff cs3 pb.delayedSiacoinOutputDiffs.reverse dir with
    | .error e => .error e
    | .ok cs4 => commitList commitSiafundPoolDiff cs4 pb.siafundPoolDiffs.reverse dir

/-- `deleteObsoleteDelayedOutputMaps` (diffs.go:294).  `cs.db.rmDelayedSiacoinOutputs`
on an absent bucket is a storage error (bolt `DeleteBucket` of a missing
bucket), modelled as `.error .missingDelayedBucket`. -/
def deleteObsoleteDelayedOutputMaps (cs : ConsensusSet) (pb : processedBlock)
    (dir : DiffDirection) : Except CError ConsensusSet :=
  if !cs.updateDatabase then .ok cs
  else if dir = .apply then
    if pb.height > MaturityDelay then
      if cs.lenDelayedSiacoinOutputsHeight pb.height ≠ 0 then
        .error .deletingNonEmptyDelayedMap
      else if !(pb.height ∈ cs.dbDelayedSiacoinOutputs) then
        .error .missingDelayedBucket
      else
        .ok { cs with dbDelayedSiacoinOutputs := cs.dbDelayedSiacoinOutputs.erase pb.height }
    else .ok cs
  else
    if cs.lenDelayedSiacoinOutputsHeight (pb.height + MaturityDelay) ≠ 0 then
      .error .deletingNonEmptyDelayedMap
    else if !((pb.height + MaturityDelay) ∈ cs.dbDelayedSiacoinOutputs) then
      .error .missingDelayedBucket
    else
      .ok { cs with dbDelayedSiacoinOutputs :=
              cs.dbDelayedSiacoinOutputs.erase (pb.height + MaturityDelay) }

/-- `updateCurrentPath` (diffs.go:321). -/
def updateCurrentPath (env : DbEnv) (cs : ConsensusSet) (pb : processedBlock)
    (dir : DiffDirection) : Except CError ConsensusSet :=
  if dir = .apply then
    if cs.updateDatabase then
      if env.pushPathErr pb.block.id then .error .pushPathFailed
      else
        .ok { cs with dbPath := cs.dbPath ++ [pb.block.id],
                      blocksLoaded := cs.blocksLoaded + 1 }
    else .ok { cs with blocksLoaded := cs.blocksLoaded + 1 }
  else
    if cs.updateDatabase then
      if cs.dbPath.isEmpty then .error .popPathFailed
      else
        .ok { cs with dbPath := cs.dbPath.dropLast,
                      blocksLoaded := cs.blocksLoaded - 1 }
    else .ok { cs with blocksLoaded := cs.blocksLoaded - 1 }

/-- `commitDiffSet` (diffs.go:343): sanity, bucket creation, the node
diffs, obsolete-bucket deletion, path update — in that order. -/
def commitDiffSet (env : DbEnv) (cs : ConsensusSet) (pb : processedBlock)
    (dir : DiffDirection) : Except CError ConsensusSet :=
  match commitDiffSetSanity cs pb dir with
  | .error e => .error e
  | .ok _ =>
  match createUpcomingDelayedOutputMaps cs pb dir with
  | .error e => .error e
  | .ok cs1 =>
  match commitNodeDiffs cs1 pb dir with
  | .error e => .error e
  | .ok cs2 =>
  match deleteObsoleteDelayedOutputMaps cs2 pb dir with
  | .error e => .error e
  | .ok cs3 => updateCurrentPath env cs3 pb dir

/-- The five tables the specification enumerates for state round trips:
coin outputs, file contracts, siafund outputs, the delayed-output buckets,
the siafund pool — plus `CurrentPath`. -/
structure CoreState where
  siacoinOutputs : SCTable
  fileContracts : FCTable
  siafundOutputs : SFTable
  delayedSiacoinOutputs : DSCTable
  siafundPool : Currency
  path : List Ident
deriving DecidableEq

/-- Project a consensus set onto the components named by the spec. -/
def ConsensusSet.core (cs : ConsensusSet) : CoreState :=
  ⟨cs.dbSiacoinOutputs, cs.dbFileContracts, cs.dbSiafundOutputs,
   cs.dbDelayedSiacoinOutputs, cs.siafundPool, cs.dbPath⟩

/-- Transaction-validation errors (spec §4.3), as opposed to storage
failures and debug panics. -/
def CError.isTxErr : CError → Bool
  | .unknownInput => true
  | .doubleSpend => true
  | .valueMismatch => true
  | _ => false

/-- Modelled from the spec: `validTransaction` (TxValidator, §4.3; not in
the sources under verification).  Checks that every referenced coin output
exists, that no output is spent twice, and value conservation. -/
def validTransaction (cs : ConsensusSet) (txn : Transaction) : Except CError Unit :=
  if txn.siacoinInputs.any (fun i => !(decide (i ∈ cs.dbSiacoinOutputs))) then
    .error .unknownInput
  else if !(decide txn.siacoinInputs.Nodup) then
    .error .doubleSpend
  else if (txn.siacoinInputs.map
            (fun i => ((cs.dbSiacoinOutputs.lookup i).map SiacoinOutput.value).getD 0)).sum
          ≠ (txn.siacoinOutputs.map (fun p => p.2.value)).sum + txn.minerFees then
    .error .valueMismatch
  else .ok ()

/-- Modelled from the spec (§4.4 step 4): spend each referenced coin
output, emitting a `Revert`-direction diff recording the spent output and
committing it immediately in the `Apply` direction. -/
def applySiacoinInputs :
    ConsensusSet → processedBlock → List Ident →
    Except CError (ConsensusSet × processedBlock)
  | cs, pb, [] => .ok (cs, pb)
  | cs, pb, i :: rest =>
    match cs.dbSiacoinOutputs.lookup i with
    | none => .error .unknownInput
    | some sco =>
      let scod : SiacoinOutputDiff := ⟨.revert, i, sco⟩
      match commitSiacoinOutputDiff cs scod .apply with
      | .error e => .error e
      | .ok cs1 =>
        applySiacoinInputs cs1
          { pb with siacoinOutputDiffs := pb.siacoinOutputDiffs ++ [scod] } rest

/-- Modelled from the spec (§4.4 step 4): install each freshly created
coin output, emitting an `Apply`-direction diff and committing it. -/
def applySiacoinOutputs :
    ConsensusSet → processedBlock → List (Ident × SiacoinOutput) →
    Except CError (ConsensusSet × processedBlock)
  | cs, pb, [] => .ok (cs, pb)
  | cs, pb, (i, sco) :: rest =>
    let scod : SiacoinOutputDiff := ⟨.apply, i, sco⟩
    match commitSiacoinOutputDiff cs scod .apply with
    | .error e => .error e
    | .ok cs1 =>
      applySiacoinOutputs cs1
        { pb with siacoinOutputDiffs := pb.siacoinOutputDiffs ++ [scod] } rest

/-- Modelled from the spec: `applyTransaction` emits and immediately
commits the diffs a validated transaction causes, appending them to the
block's diff set in emit order. -/
def applyTransaction (cs : ConsensusSet) (pb : processedBlock) (txn : Transaction) :
    Except CError (ConsensusSet × processedBlock) :=
  match applySiacoinInputs cs pb txn.siacoinInputs with
  | .error e => .error e
  | .ok (cs1, pb1) => applySiacoinOutputs cs1 pb1 txn.siacoinOutputs

/-- The contents of a bucket as a sorted association list (bolt iterates
a bucket in ascending key order). -/
def Bucket.toSorted (b : Bucket) : List (Ident × SiacoinOutput) :=
  (b.keys.sort (· ≤ ·)).filterMap (fun i => (b.lookup i).map (fun v => (i, v)))

/-- Modelled from the spec (§4.6): move one matured delayed output into the
spendable table — an `Apply`-direction coin diff paired with a
`Revert`-direction delayed diff, both committed in the `Apply` direction. -/
def matureOutputs (h : BlockHeight) :
    ConsensusSet → processedBlock → List (Ident × SiacoinOutput) →
    Except CError (ConsensusSet × processedBlock)
  | cs, pb, [] => .ok (cs, pb)
  | cs, pb, (i, sco) :: rest =>
    let scod : SiacoinOutputDiff := ⟨.apply, i, sco⟩
    match commitSiacoinOutputDiff cs scod .apply with
    | .error e => .error e
    | .ok cs1 =>
      let dscod : DelayedSiacoinOutputDiff := ⟨.revert, i, sco, h⟩
      match commitDelayedSiacoinOutputDiff cs1 dscod .apply with
      | .error e => .error e
      | .ok cs2 =>
        matureOutputs h cs2
          { pb with
            siacoinOutputDiffs := pb.siacoinOutputDiffs ++ [scod],
            delayedSiacoinOutputDiffs := pb.delayedSiacoinOutputDiffs ++ [dscod] } rest

/-- Modelled from the spec (§4.6 and the source comment in
`generateAndApplyDiff`): `applyMaturedSiacoinOutputs` moves every delayed
output in the bucket at the block's height into the spendable table and
then deletes the bucket, so that the bucket life cycle matches what
`commitDiffSet` expects on a later revert.  The first `MaturityDelay`
blocks have no matured outputs and are skipped. -/
def applyMaturedSiacoinOutputs (cs : ConsensusSet) (pb : processedBlock) :
    Except CError (ConsensusSet × processedBlock) :=
  if pb.height > MaturityDelay then
    match cs.dbDelayedSiacoinOutputs.lookup pb.height with
    | none => .error .missingDelayedBucket
    | some bucket =>
      match matureOutputs pb.height cs pb bucket.toSorted with
      | .error e => .error e
      | .ok (cs1, pb1) =>
        .ok ({ cs1 with dbDelayedSiacoinOutputs :=
                 cs1.dbDelayedSiacoinOutputs.erase pb.height }, pb1)
  else .ok (cs, pb)

/-- Modelled from the spec (§4.6): pay out the missed-proof outputs of one
expiring contract as delayed outputs and delete the contract. -/
def expireContracts (h : BlockHeight) :
    ConsensusSet → processedBlock → List Ident →
    Except CError (ConsensusSet × processedBlock)
  | cs, pb, [] => .ok (cs, pb)
  | cs, pb, fcid :: rest =>
    match cs.dbFileContracts.lookup fcid with
    | none => .error .missingFileContract
    | some fc =>
      match commitList commitDelayedSiacoinOutputDiff cs
              (fc.missedProofOutputs.map (fun p => ⟨.apply, p.1, p.2, h + MaturityDelay⟩))
              .apply with
      | .error e => .error e
      | .ok cs1 =>
        let fcd : FileContractDiff := ⟨.revert, fcid, fc⟩
        match commitFileContractDiff cs1 fcd .apply with
        | .error e => .error e
        | .ok cs2 =>
          expireContracts h cs2
            { pb with
              delayedSiacoinOutputDiffs := pb.delayedSiacoinOutputDiffs ++
                fc.missedProofOutputs.map (fun p => ⟨.apply, p.1, p.2, h + MaturityDelay⟩),
              fileContractDiffs := pb.fileContractDiffs ++ [fcd] } rest

/-- Modelled from the spec (§4.6): add one miner payout as a delayed
output maturing `MaturityDelay` blocks later. -/
def applyMinerPayouts (h : BlockHeight) :
    ConsensusSet → processedBlock → List (Ident × SiacoinOutput) →
    Except CError (ConsensusSet × processedBlock)
  | cs, pb, [] => .ok (cs, pb)
  | cs, pb, (i, sco) :: rest =>
    let dscod : DelayedSiacoinOutputDiff := ⟨.apply, i, sco, h + MaturityDelay⟩
    match commitDelayedSiacoinOutputDiff cs dscod .apply with
    | .error e => .error e
    | .ok cs1 =>
      applyMinerPayouts h cs1
        { pb with delayedSiacoinOutputDiffs := pb.delayedSiacoinOutputDiffs ++ [dscod] } rest

/-- Modelled from the spec (§4.6): per-block maintenance — matured
outputs, expiring contracts with missed proofs, miner payouts. -/
def applyMaintenance (cs : ConsensusSet) (pb : processedBlock) :
    Except CError (ConsensusSet × processedBlock) :=
  match applyMaturedSiacoinOutputs cs pb with
  | .error e => .error e
  | .ok (cs1, pb1) =>
    match expireContracts pb.height cs1 pb1
            (((cs1.dbFCExpirations.lookup pb.height).getD ∅).sort (· ≤ ·)) with
    | .error e => .error e
    | .ok (cs2, pb2) => applyMinerPayouts pb.height cs2 pb2 pb.block.minerPayouts

/-- The observable outcome of `generateAndApplyDiff`: a normal return, an
error return (the caller sees the mutated state), or a debug panic /
crash (no state is observable). -/
inductive GResult where
  | ok (cs : ConsensusSet) (pb : processedBlock)
  | fail (cs : ConsensusSet) (pb : processedBlock) (e : CError)
  | panicked (e : CError)
deriving DecidableEq

/-- The tail of `generateAndApplyDiff` (diffs.go:407-419): maintenance,
then replace the unprocessed block in the block map. -/
def finishBlock (env : DbEnv) (cs : ConsensusSet) (pb : processedBlock) : GResult :=
  match applyMaintenance cs pb with
  | .error e => .panicked e
  | .ok (cs1, pb1) =>
    if env.rmBlockMapErr pb1.block.id then .fail cs1 pb1 .rmBlockMapFailed
    else
      let cs2 := { cs1 with dbBlockMap := cs1.dbBlockMap.erase pb1.block.id }
      if env.addBlockMapErr pb1.block.id then .fail cs2 pb1 .addBlockMapFailed
      else .ok { cs2 with dbBlockMap := cs2.dbBlockMap.insert pb1.block.id pb1 } pb1

/-- The transaction loop of `generateAndApplyDiff` (diffs.go:387-401):
validate each transaction against the partially applied state; on failure
run matured-output maintenance, revert the accumulated diff set, quarantine
the block id, remove the block from the block map (`cs.deleteNode`), and
return the validation error. -/
def applyLoop (env : DbEnv) :
    ConsensusSet → processedBlock → List Transaction → GResult
  | cs, pb, [] => finishBlock env cs pb
  | cs, pb, txn :: rest =>
    match validTransaction cs txn with
    | .error e =>
      match applyMaturedSiacoinOutputs cs pb with
      | .error e2 => .panicked e2
      | .ok (cs1, pb1) =>
        match commitDiffSet env cs1 pb1 .revert with
        | .error e2 => .panicked e2
        | .ok cs2 =>
          let cs3 := { cs2 with dosBlocks := insert pb1.block.id cs2.dosBlocks }
          .fail { cs3 with dbBlockMap := cs3.dbBlockMap.erase pb1.block.id } pb1 e
    | .ok _ =>
      match applyTransaction cs pb txn with
      | .error e2 => .panicked e2
      | .ok (cs1, pb1) => applyLoop env cs1 pb1 rest

/-- `generateAndApplyDiff` (diffs.go:356): push the new block onto the
path, create the upcoming delayed-output bucket, mark diffs as generated,
then validate-and-apply each transaction in order. -/
def generateAndApplyDiff (env : DbEnv) (cs : ConsensusSet) (pb : processedBlock) : GResult :=
  if pb.diffsGenerated then .panicked .regenerateDiffs
  else if some pb.parent ≠ cs.currentBlockID then .panicked .invalidSuccessor
  else if env.pushPathErr pb.block.id then .fail cs pb .pushPathFailed
  else
    let cs1 := { cs with dbPath := cs.dbPath ++ [pb.block.id],
                         blocksLoaded := cs.blocksLoaded + 1 }
    let cs2 := { cs1 with dbDelayedSiacoinOutputs :=
                   cs1.dbDelayedSiacoinOutputs.insert (pb.height + MaturityDelay) ∅ }
    applyLoop env cs2 { pb with diffsGenerated := true } pb.block.transactions

/-- Commit a diff list by a monadic fold (used to state the iteration
contract the spec gives for `commit_diff_set`). -/
def commitFold {α : Type}
    (f : ConsensusSet → α → DiffDirection → Except CError ConsensusSet)
    (dir : DiffDirection) (cs : ConsensusSet) (l : List α) :
    Except CError ConsensusSet :=
  l.foldlM (fun s d => f s d dir) cs

/-- The iteration order of a diff list: recorded order on `Apply`,
reverse recorded order on `Revert`. -/
def orderFor (dir : DiffDirection) {α : Type} (l : List α) : List α :=
  match dir with
  | .apply => l
  | .revert => l.reverse

/-- The spec's wording of the `commit_diff_set` iteration contract: on
`Apply`, fold each diff list in recorded order; on `Revert`, fold each
list in reverse recorded order; the five lists are taken in the category
order {coin, file contract, siafund, delayed coin, siafund pool} in both
directions, and every per-diff call receives the requested direction. -/
def commitNodeDiffsSpec (cs : ConsensusSet) (pb : processedBlock)
    (dir : DiffDirection) : Except CError ConsensusSet := do
  let cs1 ← commitFold commitSiacoinOutputDiff dir cs (orderFor dir pb.siacoinOutputDiffs)
  let cs2 ← commitFold commitFileContractDiff dir cs1 (orderFor dir pb.fileContractDiffs)
  let cs3 ← commitFold commitSiafundOutputDiff dir cs2 (orderFor dir pb.siafundOutputDiffs)
  let cs4 ← commitFold commitDelayedSiacoinOutputDiff dir cs3 (orderFor dir pb.delayedSiacoinOutputDiffs)
  commitFold commitSiafundPoolDiff dir cs4 (orderFor dir pb.siafundPoolDiffs)

/-- Decidable equality of commit results (used by the witness theorems). -/
instance {α β : Type} [DecidableEq α] [DecidableEq β] : DecidableEq (Except α β) := fun x y =>
  match x, y with
  | .error a, .error b =>
    if h : a = b then .isTrue (by rw [h])
    else .isFalse (fun hh => by injection hh; contradiction)
  | .ok a, .ok b =>
    if h : a = b then .isTrue (by rw [h])
    else .isFalse (fun hh => by injection hh; contradiction)
  | .error _, .ok _ => .isFalse (fun hh => by cases hh)
  | .ok _, .error _ => .isFalse (fun hh => by cases hh)

/-! ### Concrete states used by the witness theorems -/

/-- A parent block already in the block map. -/
def wParent : processedBlock :=
  { block := { id := 99, transactions := [], minerPayouts := [] }
    parent := 98, height := 199, diffsGenerated := true
    siacoinOutputDiffs := [], fileContractDiffs := [], siafundOutputDiffs := []
    delayedSiacoinOutputDiffs := [], siafundPoolDiffs := [] }

/-- A block with one diff of every kind. -/
def wPB : processedBlock :=
  { block := { id := 100, transactions := [], minerPayouts := [] }
    parent := 99
    height := 200
    diffsGenerated := true
    siacoinOutputDiffs := [⟨.revert, 1, ⟨100, 0⟩⟩, ⟨.apply, 2, ⟨50, 0⟩⟩]
    fileContractDiffs := [⟨.apply, 6, ⟨1, 1, 500, []⟩⟩]
    siafundOutputDiffs := [⟨.apply, 3, ⟨4, 0⟩⟩]
    delayedSiacoinOutputDiffs := [⟨.revert, 5, ⟨7, 0⟩, 200⟩, ⟨.apply, 9, ⟨3, 0⟩, 344⟩]
    siafundPoolDiffs := [⟨.apply, 10, 15⟩] }

/-- A small consensus state at height 200 whose tip is block 99. -/
def wCS : ConsensusSet :=
  { updateDatabase := true
    dbSiacoinOutputs := (∅ : SCTable).insert 1 ⟨100, 0⟩
    dbFileContracts := ∅
    dbSiafundOutputs := ∅
    dbDelayedSiacoinOutputs := (∅ : DSCTable).insert 200 ((∅ : Bucket).insert 5 ⟨7, 0⟩)
    dbFCExpirations := ∅
    dbPath := [99]
    dbBlockMap := (∅ : BlockMap).insert 99 wParent
    fileContractExpirations := ∅
    siafundPool := 10
    blocksLoaded := 1
    dosBlocks := ∅ }

/-- `wCS` with the database flag off (consensus loading mode). -/
def wCSoff : ConsensusSet :=
  { wCS with updateDatabase := false,
             dbFCExpirations := (∅ : FCETable).insert 500 ∅,
             fileContractExpirations := (∅ : FCETable).insert 500 ∅ }

/-- The state produced by reverting the diff set of `wPB` from `wS1`:
`wCS` with the empty expiration bucket at height 500 left behind. -/
def wS2 : ConsensusSet :=
  { updateDatabase := true
    dbSiacoinOutputs := (∅ : SCTable).insert 1 ⟨100, 0⟩
    dbFileContracts := ∅
    dbSiafundOutputs := ∅
    dbDelayedSiacoinOutputs := (∅ : DSCTable).insert 200 ((∅ : Bucket).insert 5 ⟨7, 0⟩)
    dbFCExpirations := (∅ : FCETable).insert 500 ∅
    dbPath := [99]
    dbBlockMap := (∅ : BlockMap).insert 99 wParent
    fileContractExpirations := (∅ : FCETable).insert 500 ∅
    siafundPool := 10
    blocksLoaded := 1
    dosBlocks := ∅ }

/-- Sequentially commit a list of blocks in the `Apply` direction,
stopping at the first error. -/
def commitBlocks (env : DbEnv) : ConsensusSet → List processedBlock →
    Except CError ConsensusSet
  | cs, [] => .ok cs
  | cs, pb :: t =>
    match commitDiffSet env cs pb .apply with
    | .error e => .error e
    | .ok cs1 => commitBlocks env cs1 t

/-- The state produced by applying the diff set of `wPB` from `wCS`. -/
def wS1 : ConsensusSet :=
  { updateDatabase := true
    dbSiacoinOutputs := (∅ : SCTable).insert 2 ⟨50, 0⟩
    dbFileContracts := (∅ : FCTable).insert 6 ⟨1, 1, 500, []⟩
    dbSiafundOutputs := (∅ : SFTable).insert 3 ⟨4, 0⟩
    dbDelayedSiacoinOutputs := (∅ : DSCTable).insert 344 ((∅ : Bucket).insert 9 ⟨3, 0⟩)
    dbFCExpirations := (∅ : FCETable).insert 500 {6}
    dbPath := [99, 100]
    dbBlockMap := (∅ : BlockMap).insert 99 wParent
    fileContractExpirations := (∅ : FCETable).insert 500 {6}
    siafundPool := 15
    blocksLoaded := 2
    dosBlocks := ∅ }

/-! ### Componentwise views of the per-diff commits

Each diff kind touches a disjoint part of the consensus state.  The pure
functions below compute exactly that part's evolution; characterization
lemmas later identify them with the `ConsensusSet`-level commits. -/

/-- The common shape of `commitSiacoinOutputDiff` and
`commitSiafundOutputDiff`, acting on the table alone. -/
def simpleDiffApply {β : Type} (err : CError) (upd : Bool)
    (t : Finmap (fun _ : Nat => β)) (direction : DiffDirection) (id : Nat) (val : β)
    (dir : DiffDirection) : Except CError (Finmap (fun _ : Nat => β)) :=
  if !upd then .ok t
  else if (id ∈ t) = (direction = dir) then .error err
  else if direction = dir then .ok (t.insert id val)
  else .ok (t.erase id)

/-- `commitSiacoinOutputDiff` on the siacoin-output table. -/
def scodApply (upd : Bool) (t : SCTable) (d : SiacoinOutputDiff)
    (dir : DiffDirection) : Except CError SCTable :=
  simpleDiffApply .badCommitSiacoinOutputDiff upd t d.direction d.id d.siacoinOutput dir

/-- `commitSiafundOutputDiff` on the siafund-output table. -/
def sfodApply (upd : Bool) (t : SFTable) (d : SiafundOutputDiff)
    (dir : DiffDirection) : Except CError SFTable :=
  simpleDiffApply .badCommitSiafundOutputDiff upd t d.direction d.id d.siafundOutput dir

/-- `commitDelayedSiacoinOutputDiff` on the delayed-output table. -/
def dscodApply (upd : Bool) (t : DSCTable) (d : DelayedSiacoinOutputDiff)
    (dir : DiffDirection) : Except CError DSCTable :=
  if !upd then .ok t
  else
    match t.lookup d.maturityHeight with
    | none => .error .badMaturityHeight
    | some bucket =>
      if (d.id ∈ bucket) = (d.direction = dir) then .error .badCommitDelayedSiacoinOutputDiff
      else if d.direction = dir then
        .ok (t.insert d.maturityHeight (bucket.insert d.id d.siacoinOutput))
      else
        .ok (t.insert d.maturityHeight (bucket.erase d.id))

/-- `commitSiafundPoolDiff` on the pool scalar. -/
def sfpdApply (pool : Currency) (d : SiafundPoolDiff)
    (dir : DiffDirection) : Except CError Currency :=
  if d.adjusted < d.previous then .error .negativePoolAdjustment
  else if d.direction ≠ .apply then .error .nonApplySiafundPoolDiff
  else if dir = .apply then
    if pool ≠ d.previous then .error .applySiafundPoolDiffMismatch
    else .ok d.adjusted
  else
    if pool ≠ d.adjusted then .error .revertSiafundPoolDiffMismatch
    else .ok d.previous

/-- The state a file-contract diff touches: the contract table plus the
in-memory and database expiration indexes. -/
structure FCComp where
  contracts : FCTable
  memFCE : FCETable
  dbFCE : FCETable
deriving DecidableEq

/-- Membership in a database expiration bucket (`inFCExpirationsHeight`)
on the component view. -/
def FCComp.inDbHeight (p : FCComp) (w : BlockHeight) (id : Ident) : Bool :=
  match p.dbFCE.lookup w with
  | none => false
  | some bucket => id ∈ bucket

/-- `commitFileContractDiff` on its component. -/
def fcdApply (upd : Bool) (p : FCComp) (fcd : FileContractDiff)
    (dir : DiffDirection) : Except CError FCComp :=
  if ((fcd.id ∈ p.contracts) = (fcd.direction = dir)) && upd then
    .error .badCommitFileContractDiff
  else if fcd.direction = dir then
    let w := fcd.fileContract.windowEnd
    let p1 := if upd then { p with contracts := p.contracts.insert fcd.id fcd.fileContract } else p
    let p2 :=
      if !(w ∈ p1.dbFCE) && upd then
        { p1 with memFCE := p1.memFCE.insert w ∅, dbFCE := p1.dbFCE.insert w ∅ }
      else p1
    if p2.inDbHeight w fcd.id then .error .existingFileContractExpiration
    else
      match p2.memFCE.lookup w with
      | none => .error .nilMapWrite
      | some bucket =>
        let p3 := { p2 with memFCE := p2.memFCE.insert w (insert fcd.id bucket) }
        .ok <|
          if upd then
            { p3 with dbFCE :=
                match p3.dbFCE.lookup w with
                | none => p3.dbFCE
                | some dbBucket => p3.dbFCE.insert w (insert fcd.id dbBucket) }
          else p3
  else
    let w := fcd.fileContract.windowEnd
    let p1 := if upd then { p with contracts := p.contracts.erase fcd.id } else p
    if upd && !(w ∈ p1.dbFCE) then .error .badExpirationPointer
    else if upd && !(p1.inDbHeight w fcd.id) then .error .badExpirationPointer
    else
      let p2 := { p1 with memFCE :=
        match p1.memFCE.lookup w with
        | none => p1.memFCE
        | some bucket => p1.memFCE.insert w (bucket.erase fcd.id) }
      .ok <|
        if upd then
          { p2 with dbFCE :=
              match p2.dbFCE.lookup w with
              | none => p2.dbFCE
              | some dbBucket => p2.dbFCE.insert w (dbBucket.erase fcd.id) }
        else p2

/-- Fold a pure per-diff step over a diff list, stopping at the first
error. -/
def foldDiffs {σ α : Type} (g : σ → α → Except CError σ) : σ → List α → Except CError σ
  | s, [] => .ok s
  | s, d :: t =>
    match g s d with
    | .error e => .error e
    | .ok s1 => foldDiffs g s1 t

/-- A per-diff-list consistency check: every step of the apply-direction
run succeeds, and each step whose effective operation is a delete finds
exactly the value the diff records (`matchF`). -/
def listMatch {σ α : Type} (matchF : σ → α → Bool) (g : σ → α → Except CError σ) :
    σ → List α → Bool
  | _, [] => true
  | s, d :: t =>
    matchF s d &&
      (match g s d with
       | .error _ => false
       | .ok s1 => listMatch matchF g s1 t)

/-- Value consistency of one siacoin-output diff with the table. -/
def scodMatch (t : SCTable) (d : SiacoinOutputDiff) : Bool :=
  if d.direction = .apply then true else decide (t.lookup d.id = some d.siacoinOutput)

/-- Value consistency of one siafund-output diff with the table. -/
def sfodMatch (t : SFTable) (d : SiafundOutputDiff) : Bool :=
  if d.direction = .apply then true else decide (t.lookup d.id = some d.siafundOutput)

/-- Value consistency of one delayed-output diff with its bucket. -/
def dscodMatch (t : DSCTable) (d : DelayedSiacoinOutputDiff) : Bool :=
  if d.direction = .apply then true
  else
    match t.lookup d.maturityHeight with
    | none => false
    | some bucket => decide (bucket.lookup d.id = some d.siacoinOutput)

/-- Value consistency of one file-contract diff with the contract table. -/
def fcdMatch (p : FCComp) (fcd : FileContractDiff) : Bool :=
  if fcd.direction = .apply then true
  else decide (p.contracts.lookup fcd.id = some fcd.fileContract)

/-- Value consistency of a file-contract diff together with the
synchronization of the two expiration indexes at the step's state. -/
def fcdMatchS (p : FCComp) (fcd : FileContractDiff) : Bool :=
  fcdMatch p fcd && decide (p.memFCE = p.dbFCE)

/-- `B` extends `A` by at most some empty buckets: the leak a revert can
leave in the file-contract-expiration index. -/
def fceLeakLE (A B : FCETable) : Prop :=
  ∀ w, B.lookup w = A.lookup w ∨ (A.lookup w = none ∧ B.lookup w = some ∅)

/-- The simulation relation for file-contract components: equal contract
tables, both expiration indexes synchronized in memory and database, and
the right index extends the left by at most empty buckets. -/
def fcR (p q : FCComp) : Prop :=
  p.contracts = q.contracts ∧ p.memFCE = p.dbFCE ∧ q.memFCE = q.dbFCE ∧
    fceLeakLE p.dbFCE q.dbFCE

/-- The five state components a block's diff set touches. -/
structure Comps where
  sc : SCTable
  fcc : FCComp
  sf : SFTable
  dsc : DSCTable
  pool : Currency
deriving DecidableEq

/-- Project a consensus set onto its diff-set components. -/
def ConsensusSet.comps (cs : ConsensusSet) : Comps :=
  ⟨cs.dbSiacoinOutputs,
   ⟨cs.dbFileContracts, cs.fileContractExpirations, cs.dbFCExpirations⟩,
   cs.dbSiafundOutputs, cs.dbDelayedSiacoinOutputs, cs.siafundPool⟩

/-- Store diff-set components back into a consensus set. -/
def ConsensusSet.setComps (cs : ConsensusSet) (c : Comps) : ConsensusSet :=
  { cs with
    dbSiacoinOutputs := c.sc
    dbFileContracts := c.fcc.contracts
    fileContractExpirations := c.fcc.memFCE
    dbFCExpirations := c.fcc.dbFCE
    dbSiafundOutputs := c.sf
    dbDelayedSiacoinOutputs := c.dsc
    siafundPool := c.pool }

/-- The pure effect of `commitNodeDiffs` on the five components. -/
def nodeFold (upd : Bool) (c : Comps) (pb : processedBlock)
    (dir : DiffDirection) : Except CError Comps :=
  match foldDiffs (fun t d => scodApply upd t d dir) c.sc
      (orderFor dir pb.siacoinOutputDiffs) with
  | .error e => .error e
  | .ok sc1 =>
  match foldDiffs (fun p d => fcdApply upd p d dir) c.fcc
      (orderFor dir pb.fileContractDiffs) with
  | .error e => .error e
  | .ok fcc1 =>
  match foldDiffs (fun t d => sfodApply upd t d dir) c.sf
      (orderFor dir pb.siafundOutputDiffs) with
  | .error e => .error e
  | .ok sf1 =>
  match foldDiffs (fun t d => dscodApply upd t d dir) c.dsc
      (orderFor dir pb.delayedSiacoinOutputDiffs) with
  | .error e => .error e
  | .ok dsc1 =>
  match foldDiffs (fun x d => sfpdApply x d dir) c.pool
      (orderFor dir pb.siafundPoolDiffs) with
  | .error e => .error e
  | .ok pool1 => .ok ⟨sc1, fcc1, sf1, dsc1, pool1⟩

/-- The revert run leaves all components of `c` intact except that the
expiration index may keep some freshly created empty buckets
(`fceLeakLE`); both expiration copies stay synchronized. -/
def compsLeak (c c2 : Comps) : Prop :=
  c2.sc = c.sc ∧ c2.fcc.contracts = c.fcc.contracts ∧
  c.fcc.memFCE = c.fcc.dbFCE ∧ c2.fcc.memFCE = c2.fcc.dbFCE ∧
  fceLeakLE c.fcc.dbFCE c2.fcc.dbFCE ∧
  c2.sf = c.sf ∧ c2.dsc = c.dsc ∧ c2.pool = c.pool

/-- The whole diff-set consistency check for a block: all four
value-carrying diff lists are consistent along the apply-direction run
(`listMatch`), taking the lists from the states they will actually see
during `commitNodeDiffs` in the `Apply` direction. -/
def diffSetMatch (cs : ConsensusSet) (pb : processedBlock) : Bool :=
  listMatch scodMatch (fun t d => scodApply true t d .apply)
      cs.dbSiacoinOutputs pb.siacoinOutputDiffs &&
  listMatch fcdMatch (fun p d => fcdApply true p d .apply)
      ⟨cs.dbFileContracts, cs.fileContractExpirations, cs.dbFCExpirations⟩
      pb.fileContractDiffs &&
  listMatch sfodMatch (fun t d => sfodApply true t d .apply)
      cs.dbSiafundOutputs pb.siafundOutputDiffs &&
  listMatch dscodMatch (fun t d => dscodApply true t d .apply)
      (cs.dbDelayedSiacoinOutputs.insert (pb.height + MaturityDelay) ∅)
      pb.delayedSiacoinOutputDiffs

/-! ### Finmap helper lemmas -/

theorem fmLookupInsertSelf {β : Type} (s : Finmap (fun _ : Nat => β)) (a : Nat) (b : β) :
    (s.insert a b).lookup a = some b :=
  Finmap.lookup_insert s

theorem fmEraseInsert {β : Type} (s : Finmap (fun _ : Nat => β)) (a : Nat) (b : β)
    (h : a ∉ s) : (s.insert a b).erase a = s := by
  apply Finmap.ext_lookup
  intro x
  by_cases hx : x = a
  · subst hx
    simp [Finmap.lookup_erase, Finmap.lookup_eq_none.2 h]
  · rw [Finmap.lookup_erase_ne hx, Finmap.lookup_insert_of_ne _ hx]

theorem fmInsertErase {β : Type} (s : Finmap (fun _ : Nat => β)) (a : Nat) (b : β)
    (h : s.lookup a = some b) : (s.erase a).insert a b = s := by
  apply Finmap.ext_lookup
  intro x
  by_cases hx : x = a
  · subst hx; simp [Finmap.lookup_insert, h]
  · rw [Finmap.lookup_insert_of_ne _ hx, Finmap.lookup_erase_ne hx]

theorem fmInsertLookedUp {β : Type} (s : Finmap (fun _ : Nat => β)) (a : Nat) (b : β)
    (h : s.lookup a = some b) : s.insert a b = s := by
  apply Finmap.ext_lookup
  intro x
  by_cases hx : x = a
  · subst hx; simp [Finmap.lookup_insert, h]
  · rw [Finmap.lookup_insert_of_ne _ hx]

theorem fmInsertInsert {β : Type} (s : Finmap (fun _ : Nat => β)) (a : Nat) (b b' : β) :
    (s.insert a b).insert a b' = s.insert a b' := by
  apply Finmap.ext_lookup
  intro x
  by_cases hx : x = a
  · subst hx; simp [Finmap.lookup_insert]
  · rw [Finmap.lookup_insert_of_ne _ hx, Finmap.lookup_insert_of_ne _ hx,
        Finmap.lookup_insert_of_ne _ hx]

/-! ### Characterization of the per-diff commits by their pure component ops -/

theorem scodCommitChar (cs : ConsensusSet) (d : SiacoinOutputDiff) (dir : DiffDirection) :
    commitSiacoinOutputDiff cs d dir =
      (scodApply cs.updateDatabase cs.dbSiacoinOutputs d dir).map
        (fun t => { cs with dbSiacoinOutputs := t }) := by
  rw [commitSiacoinOutputDiff, scodApply, simpleDiffApply]
  by_cases h1 : (!cs.updateDatabase) = true
  · rw [if_pos h1, if_pos h1]; rfl
  · rw [if_neg h1, if_neg h1]
    by_cases h2 : (d.id ∈ cs.dbSiacoinOutputs) = (d.direction = dir)
    · rw [if_pos h2, if_pos h2]; rfl
    · rw [if_neg h2, if_neg h2]
      by_cases h3 : d.direction = dir
      · rw [if_pos h3, if_pos h3]; rfl
      · rw [if_neg h3, if_neg h3]; rfl

theorem sfodCommitChar (cs : ConsensusSet) (d : SiafundOutputDiff) (dir : DiffDirection) :
    commitSiafundOutputDiff cs d dir =
      (sfodApply cs.updateDatabase cs.dbSiafundOutputs d dir).map
        (fun t => { cs with dbSiafundOutputs := t }) := by
  rw [commitSiafundOutputDiff, sfodApply, simpleDiffApply]
  by_cases h1 : (!cs.updateDatabase) = true
  · rw [if_pos h1, if_pos h1]; rfl
  · rw [if_neg h1, if_neg h1]
    by_cases h2 : (d.id ∈ cs.dbSiafundOutputs) = (d.direction = dir)
    · rw [if_pos h2, if_pos h2]; rfl
    · rw [if_neg h2, if_neg h2]
      by_cases h3 : d.direction = dir
      · rw [if_pos h3, if_pos h3]; rfl
      · rw [if_neg h3, if_neg h3]; rfl

theorem dscodCommitChar (cs : ConsensusSet) (d : DelayedSiacoinOutputDiff) (dir : DiffDirection) :
    commitDelayedSiacoinOutputDiff cs d dir =
      (dscodApply cs.updateDatabase cs.dbDelayedSiacoinOutputs d dir).map
        (fun t => { cs with dbDelayedSiacoinOutputs := t }) := by
  rw [commitDelayedSiacoinOutputDiff, dscodApply]
  by_cases h1 : (!cs.updateDatabase) = true
  · rw [if_pos h1, if_pos h1]; rfl
  · rw [if_neg h1, if_neg h1]
    cases hb : cs.dbDelayedSiacoinOutputs.lookup d.maturityHeight with
    | none => rfl
    | some bucket =>
      show (if (d.id ∈ bucket) = (d.direction = dir) then _ else _ :
              Except CError ConsensusSet) =
           Except.map _ (if (d.id ∈ bucket) = (d.direction = dir) then _ else _)
      by_cases h2 : (d.id ∈ bucket) = (d.direction = dir)
      · rw [if_pos h2, if_pos h2]; rfl
      · rw [if_neg h2, if_neg h2]
        by_cases h3 : d.direction = dir
        · rw [if_pos h3, if_pos h3]; rfl
        · rw [if_neg h3, if_neg h3]; rfl

theorem sfpdCommitChar (cs : ConsensusSet) (d : SiafundPoolDiff) (dir : DiffDirection) :
    commitSiafundPoolDiff cs d dir =
      (sfpdApply cs.siafundPool d dir).map (fun x => { cs with siafundPool := x }) := by
  rw [commitSiafundPoolDiff, sfpdApply]
  by_cases h1 : d.adjusted < d.previous
  · rw [if_pos h1, if_pos h1]; rfl
  · rw [if_neg h1, if_neg h1]
    by_cases h2 : d.direction ≠ .apply
    · rw [if_pos h2, if_pos h2]; rfl
    · rw [if_neg h2, if_neg h2]
      by_cases h3 : dir = .apply
      · rw [if_pos h3, if_pos h3]
        by_cases h4 : cs.siafundPool ≠ d.previous
        · rw [if_pos h4, if_pos h4]; rfl
        · rw [if_neg h4, if_neg h4]; rfl
      · rw [if_neg h3, if_neg h3]
        by_cases h4 : cs.siafundPool ≠ d.adjusted
        · rw [if_pos h4, if_pos h4]; rfl
        · rw [if_neg h4, if_neg h4]; rfl

/-! ### Generic facts about `foldDiffs` -/

theorem foldDiffs_cons {σ α : Type} (g : σ → α → Except CError σ) (s : σ) (d : α)
    (t : List α) :
    foldDiffs g s (d :: t) =
      match g s d with
      | .error e => .error e
      | .ok s1 => foldDiffs g s1 t := rfl

theorem listMatch_cons {σ α : Type} (matchF : σ → α → Bool) (g : σ → α → Except CError σ)
    (s : σ) (d : α) (t : List α) :
    listMatch matchF g s (d :: t) =
      (matchF s d &&
        (match g s d with
         | .error _ => false
         | .ok s1 => listMatch matchF g s1 t)) := rfl

theorem foldDiffs_append {σ α : Type} (g : σ → α → Except CError σ) (l1 l2 : List α) :
    ∀ s, foldDiffs g s (l1 ++ l2) =
      match foldDiffs g s l1 with
      | .error e => .error e
      | .ok m => foldDiffs g m l2 := by
  induction l1 with
  | nil => intro s; rfl
  | cons d t ih =>
    intro s
    rw [List.cons_append, foldDiffs_cons, foldDiffs_cons]
    cases g s d with
    | error e => rfl
    | ok s1 => exact ih s1

theorem foldRevertExact {σ α : Type} (ga gr : σ → α → Except CError σ)
    (matchF : σ → α → Bool)
    (hstep : ∀ s s1 d, ga s d = .ok s1 → matchF s d = true → gr s1 d = .ok s) :
    ∀ (l : List α) (s s1 : σ), foldDiffs ga s l = .ok s1 →
      listMatch matchF ga s l = true → foldDiffs gr s1 l.reverse = .ok s := by
  intro l
  induction l with
  | nil =>
    intro s s1 h _
    cases h
    rfl
  | cons d t ih =>
    intro s s1 h hm
    cases hg : ga s d with
    | error e =>
      rw [foldDiffs_cons, hg] at h
      cases h
    | ok sd =>
      rw [foldDiffs_cons, hg] at h
      rw [listMatch_cons, hg] at hm
      simp only [Bool.and_eq_true] at hm
      rw [List.reverse_cons, foldDiffs_append, ih sd s1 h hm.2]
      show foldDiffs gr sd [d] = .ok s
      rw [foldDiffs_cons, hstep s sd d hg hm.1]
      rfl

theorem foldRevertR {σ α : Type} (ga gr : σ → α → Except CError σ)
    (matchF : σ → α → Bool) (R : σ → σ → Prop)
    (hstep : ∀ s s1 u d, ga s d = .ok s1 → matchF s d = true → R s1 u →
      ∃ u', gr u d = .ok u' ∧ R s u') :
    ∀ (l : List α) (s s1 u : σ), foldDiffs ga s l = .ok s1 →
      listMatch matchF ga s l = true → R s1 u →
      ∃ u', foldDiffs gr u l.reverse = .ok u' ∧ R s u' := by
  intro l
  induction l with
  | nil =>
    intro s s1 u h _ hr
    cases h
    exact ⟨u, rfl, hr⟩
  | cons d t ih =>
    intro s s1 u h hm hr
    cases hg : ga s d with
    | error e =>
      rw [foldDiffs_cons, hg] at h
      cases h
    | ok sd =>
      rw [foldDiffs_cons, hg] at h
      rw [listMatch_cons, hg] at hm
      simp only [Bool.and_eq_true] at hm
      obtain ⟨u1, hu1, hru1⟩ := ih sd s1 u h hm.2 hr
      obtain ⟨u2, hu2, hru2⟩ := hstep s sd u1 d hg hm.1 hru1
      refine ⟨u2, ?_, hru2⟩
      rw [List.reverse_cons, foldDiffs_append, hu1]
      show foldDiffs gr u1 [d] = .ok u2
      rw [foldDiffs_cons, hu2]
      rfl

theorem foldApplyR {σ α : Type} (ga : σ → α → Except CError σ) (R : σ → σ → Prop)
    (hstep : ∀ s s' t d, ga s d = .ok s' → R s t → ∃ t', ga t d = .ok t' ∧ R s' t') :
    ∀ (l : List α) (s s' t : σ), foldDiffs ga s l = .ok s' → R s t →
      ∃ t', foldDiffs ga t l = .ok t' ∧ R s' t' := by
  intro l
  induction l with
  | nil =>
    intro s s' t h hr
    cases h
    exact ⟨t, rfl, hr⟩
  | cons d rest ih =>
    intro s s' t h hr
    cases hg : ga s d with
    | error e =>
      rw [foldDiffs_cons, hg] at h
      cases h
    | ok sd =>
      rw [foldDiffs_cons, hg] at h
      obtain ⟨t1, ht1, hrt1⟩ := hstep s sd t d hg hr
      obtain ⟨t2, ht2, hrt2⟩ := ih sd s' t1 h hrt1
      exact ⟨t2, by rw [foldDiffs_cons, ht1]; exact ht2, hrt2⟩

/-! ### Revert-exactness of the single-diff component operations -/

theorem simpleStepRevert {β : Type} (err : CError) (t t1 : Finmap (fun _ : Nat => β))
    (direction : DiffDirection) (id : Nat) (val : β)
    (h : simpleDiffApply err true t direction id val .apply = .ok t1)
    (hm : direction ≠ .apply → t.lookup id = some val) :
    simpleDiffApply err true t1 direction id val .revert = .ok t := by
  rw [simpleDiffApply] at h ⊢
  simp only [Bool.not_true, Bool.false_eq_true, if_false] at h ⊢
  cases direction with
  | apply =>
    by_cases hmem : id ∈ t
    · rw [if_pos (by simp [hmem])] at h
      cases h
    · rw [if_neg (by simp [hmem]), if_pos rfl] at h
      cases h
      rw [if_neg (by simp), if_neg (by decide), fmEraseInsert t id val hmem]
  | revert =>
    have hv := hm (by decide)
    by_cases hmem : id ∈ t
    · rw [if_neg (by simp [hmem]), if_neg (by decide)] at h
      cases h
      rw [if_neg (by simp [Finmap.mem_erase]), if_pos rfl, fmInsertErase t id val hv]
    · exact absurd (Finmap.mem_of_lookup_eq_some hv) hmem

theorem scodStepRevert (t t1 : SCTable) (d : SiacoinOutputDiff)
    (h : scodApply true t d .apply = .ok t1) (hm : scodMatch t d = true) :
    scodApply true t1 d .revert = .ok t := by
  refine simpleStepRevert _ t t1 d.direction d.id d.siacoinOutput h ?_
  intro hd
  rw [scodMatch, if_neg hd] at hm
  exact of_decide_eq_true hm

theorem sfodStepRevert (t t1 : SFTable) (d : SiafundOutputDiff)
    (h : sfodApply true t d .apply = .ok t1) (hm : sfodMatch t d = true) :
    sfodApply true t1 d .revert = .ok t := by
  refine simpleStepRevert _ t t1 d.direction d.id d.siafundOutput h ?_
  intro hd
  rw [sfodMatch, if_neg hd] at hm
  exact of_decide_eq_true hm

theorem dscodStepRevert (t t1 : DSCTable) (d : DelayedSiacoinOutputDiff)
    (h : dscodApply true t d .apply = .ok t1) (hm : dscodMatch t d = true) :
    dscodApply true t1 d .revert = .ok t := by
  cases hb : t.lookup d.maturityHeight with
  | none =>
    rw [dscodApply] at h
    simp [hb] at h
  | some bucket =>
    cases hd : d.direction with
    | apply =>
      by_cases hmem : d.id ∈ bucket
      · rw [dscodApply] at h
        simp [hb, hd, hmem] at h
      · rw [dscodApply] at h
        simp [hb, hd, hmem] at h
        subst h
        rw [dscodApply]
        simp only [Bool.not_true, Bool.false_eq_true, if_false,
          fmLookupInsertSelf t d.maturityHeight (bucket.insert d.id d.siacoinOutput), hd]
        rw [if_neg (by simp), if_neg (by decide), fmEraseInsert bucket d.id _ hmem,
          fmInsertInsert, fmInsertLookedUp t d.maturityHeight bucket hb]
    | revert =>
      rw [dscodMatch, hd, if_neg (by decide), hb] at hm
      have hv : bucket.lookup d.id = some d.siacoinOutput := of_decide_eq_true hm
      have hmem : d.id ∈ bucket := Finmap.mem_of_lookup_eq_some hv
      rw [dscodApply] at h
      simp only [Bool.not_true, Bool.false_eq_true, if_false, hb, hd] at h
      rw [if_neg (by simp [hmem]), if_neg (by decide)] at h
      cases h
      rw [dscodApply]
      simp only [Bool.not_true, Bool.false_eq_true, if_false,
        fmLookupInsertSelf t d.maturityHeight (bucket.erase d.id), hd]
      rw [if_neg (by simp [Finmap.mem_erase]), if_true,
        fmInsertErase bucket d.id _ hv, fmInsertInsert,
        fmInsertLookedUp t d.maturityHeight bucket hb]

theorem sfpdStepRevert (pool pool1 : Currency) (d : SiafundPoolDiff)
    (h : sfpdApply pool d .apply = .ok pool1) :
    sfpdApply pool1 d .revert = .ok pool := by
  rw [sfpdApply] at h ⊢
  split at h
  · cases h
  split at h
  · cases h
  rw [if_pos rfl] at h
  split at h
  · cases h
  rename_i hlt hdir hpool
  rw [Decidable.not_not] at hpool
  cases h
  rw [if_neg hlt, if_neg hdir, if_neg (by decide), if_neg (by simp), hpool]

theorem fcodCommitChar (cs : ConsensusSet) (fcd : FileContractDiff) (dir : DiffDirection) :
    commitFileContractDiff cs fcd dir =
      (fcdApply cs.updateDatabase
          ⟨cs.dbFileContracts, cs.fileContractExpirations, cs.dbFCExpirations⟩ fcd dir).map
        (fun p => { cs with dbFileContracts := p.contracts,
                            fileContractExpirations := p.memFCE,
                            dbFCExpirations := p.dbFCE }) := by
  by_cases hc0 : (decide ((fcd.id ∈ cs.dbFileContracts) = (fcd.direction = dir)) &&
      cs.updateDatabase) = true
  · rw [commitFileContractDiff, fcdApply]
    rw [if_pos hc0, if_pos hc0]
    rfl
  · cases hu : cs.updateDatabase with
    | false =>
      by_cases hdir : fcd.direction = dir
      · cases hwdb : cs.dbFCExpirations.lookup fcd.fileContract.windowEnd with
        | none =>
          cases hm : cs.fileContractExpirations.lookup fcd.fileContract.windowEnd with
          | none =>
            simp [commitFileContractDiff, fcdApply, ConsensusSet.inFCExpirationsHeight,
              FCComp.inDbHeight, Except.map, hc0, hdir, hwdb, hu, hm]
          | some bucket =>
            simp [commitFileContractDiff, fcdApply, ConsensusSet.inFCExpirationsHeight,
              FCComp.inDbHeight, Except.map, hc0, hdir, hwdb, hu, hm]
        | some dbBucket =>
          by_cases hidb : fcd.id ∈ dbBucket
          · simp [commitFileContractDiff, fcdApply, ConsensusSet.inFCExpirationsHeight,
              FCComp.inDbHeight, Except.map, hc0, hdir, hwdb, hu, hidb]
          · cases hm : cs.fileContractExpirations.lookup fcd.fileContract.windowEnd with
            | none =>
              simp [commitFileContractDiff, fcdApply, ConsensusSet.inFCExpirationsHeight,
                FCComp.inDbHeight, Except.map, hc0, hdir, hwdb, hu, hidb, hm]
            | some bucket =>
              simp [commitFileContractDiff, fcdApply, ConsensusSet.inFCExpirationsHeight,
                FCComp.inDbHeight, Except.map, hc0, hdir, hwdb, hu, hidb, hm]
      · cases hm : cs.fileContractExpirations.lookup fcd.fileContract.windowEnd with
        | none =>
          simp [commitFileContractDiff, fcdApply, ConsensusSet.inFCExpirationsHeight,
            FCComp.inDbHeight, Except.map, hc0, hdir, hu, hm]
        | some bucket =>
          simp [commitFileContractDiff, fcdApply, ConsensusSet.inFCExpirationsHeight,
            FCComp.inDbHeight, Except.map, hc0, hdir, hu, hm]
    | true =>
      have hne : ¬((fcd.id ∈ cs.dbFileContracts) = (fcd.direction = dir)) :=
        fun hP => hc0 (by simp [hP, hu])
      by_cases hdir : fcd.direction = dir
      · have hmemFC : fcd.id ∉ cs.dbFileContracts :=
          fun hmm => hne (by simp [hmm, hdir])
        cases hwdb : cs.dbFCExpirations.lookup fcd.fileContract.windowEnd with
        | none =>
          have hwmem : fcd.fileContract.windowEnd ∉ cs.dbFCExpirations :=
            Finmap.lookup_eq_none.1 hwdb
          simp [commitFileContractDiff, fcdApply, ConsensusSet.inFCExpirationsHeight,
            FCComp.inDbHeight, Except.map, hc0, hdir, hwdb, hwmem, hu, hmemFC,
            Finmap.lookup_insert]
        | some dbBucket =>
          have hwmem : fcd.fileContract.windowEnd ∈ cs.dbFCExpirations :=
            Finmap.mem_of_lookup_eq_some hwdb
          by_cases hidb : fcd.id ∈ dbBucket
          · simp [commitFileContractDiff, fcdApply, ConsensusSet.inFCExpirationsHeight,
              FCComp.inDbHeight, Except.map, hc0, hdir, hwdb, hwmem, hu, hmemFC, hidb]
          · cases hm : cs.fileContractExpirations.lookup fcd.fileContract.windowEnd with
            | none =>
              simp [commitFileContractDiff, fcdApply, ConsensusSet.inFCExpirationsHeight,
                FCComp.inDbHeight, Except.map, hc0, hdir, hwdb, hwmem, hu, hmemFC, hidb, hm]
            | some bucket =>
              simp [commitFileContractDiff, fcdApply, ConsensusSet.inFCExpirationsHeight,
                FCComp.inDbHeight, Except.map, hc0, hdir, hwdb, hwmem, hu, hmemFC, hidb, hm]
      · have hmemFC : fcd.id ∈ cs.dbFileContracts := by
          by_contra hn
          exact hne (by simp [hn, hdir])
        cases hwdb : cs.dbFCExpirations.lookup fcd.fileContract.windowEnd with
        | none =>
          have hwmem : fcd.fileContract.windowEnd ∉ cs.dbFCExpirations :=
            Finmap.lookup_eq_none.1 hwdb
          simp [commitFileContractDiff, fcdApply, ConsensusSet.inFCExpirationsHeight,
            FCComp.inDbHeight, Except.map, hc0, hdir, hwdb, hwmem, hu, hmemFC]
        | some dbBucket =>
          have hwmem : fcd.fileContract.windowEnd ∈ cs.dbFCExpirations :=
            Finmap.mem_of_lookup_eq_some hwdb
          by_cases hidb : fcd.id ∈ dbBucket
          · cases hm : cs.fileContractExpirations.lookup fcd.fileContract.windowEnd with
            | none =>
              simp [commitFileContractDiff, fcdApply, ConsensusSet.inFCExpirationsHeight,
                FCComp.inDbHeight, Except.map, hc0, hdir, hwdb, hwmem, hu, hmemFC, hidb, hm]
            | some bucket =>
              simp [commitFileContractDiff, fcdApply, ConsensusSet.inFCExpirationsHeight,
                FCComp.inDbHeight, Except.map, hc0, hdir, hwdb, hwmem, hu, hmemFC, hidb, hm]
          · simp [commitFileContractDiff, fcdApply, ConsensusSet.inFCExpirationsHeight,
              FCComp.inDbHeight, Except.map, hc0, hdir, hwdb, hwmem, hu, hmemFC, hidb]

/-! ### The file-contract component under the leak relation -/


theorem fceLeakLookup (A B : FCETable) (h : fceLeakLE A B) (w : BlockHeight)
    (b : Finset Ident) (hb : A.lookup w = some b) : B.lookup w = some b := by
  rcases h w with heq | ⟨hnone, _⟩
  · rw [heq, hb]
  · rw [hb] at hnone
    cases hnone

theorem fceLeakLE_insert (A B : FCETable) (h : fceLeakLE A B) (w : BlockHeight)
    (b : Finset Ident) : fceLeakLE (A.insert w b) (B.insert w b) := by
  intro x
  by_cases hx : x = w
  · subst hx
    exact Or.inl (by rw [Finmap.lookup_insert, Finmap.lookup_insert])
  · rw [Finmap.lookup_insert_of_ne _ hx, Finmap.lookup_insert_of_ne _ hx]
    exact h x

theorem fceLeakLE_shrink {w : BlockHeight} {b : Finset Ident} (A B : FCETable)
    (h : fceLeakLE (A.insert w b) B) (x : BlockHeight) (hx : x ≠ w) :
    B.lookup x = A.lookup x ∨ (A.lookup x = none ∧ B.lookup x = some ∅) := by
  rcases h x with heq | ⟨hnone, hsome⟩
  · rw [Finmap.lookup_insert_of_ne _ hx] at heq
    exact Or.inl heq
  · rw [Finmap.lookup_insert_of_ne _ hx] at hnone
    exact Or.inr ⟨hnone, hsome⟩

theorem fcdStepRevert (p p1 u : FCComp) (fcd : FileContractDiff)
    (h : fcdApply true p fcd .apply = .ok p1)
    (hm : fcdMatch p fcd = true)
    (hsync : p.memFCE = p.dbFCE)
    (hr : fcR p1 u) :
    ∃ u', fcdApply true u fcd .revert = .ok u' ∧ fcR p u' := by
  obtain ⟨hrc, hrs1, hrsu, hrleak⟩ := hr
  by_cases hc0 : (decide ((fcd.id ∈ p.contracts) = (fcd.direction = DiffDirection.apply)) &&
      true) = true
  · rw [fcdApply, if_pos hc0] at h
    cases h
  · cases hdir : fcd.direction with
    | apply =>
      have hFC : fcd.id ∉ p.contracts := by
        intro hmm
        exact hc0 (by simp [hmm, hdir])
      cases hwdb : p.dbFCE.lookup fcd.fileContract.windowEnd with
      | some dbB =>
        have hwmem : fcd.fileContract.windowEnd ∈ p.dbFCE :=
          Finmap.mem_of_lookup_eq_some hwdb
        by_cases hidb : fcd.id ∈ dbB
        · rw [fcdApply] at h
          simp [FCComp.inDbHeight, hc0, hdir, hwdb, hwmem, hidb, hFC] at h
        · rw [fcdApply] at h
          simp [FCComp.inDbHeight, hc0, hdir, hwdb, hwmem, hsync, hFC, hidb] at h
          subst h
          dsimp only at hrc hrs1 hrleak
          have hEuW : u.dbFCE.lookup fcd.fileContract.windowEnd =
              some (insert fcd.id dbB) :=
            fceLeakLookup _ _ hrleak _ _ (Finmap.lookup_insert _)
          have huwm : fcd.fileContract.windowEnd ∈ u.dbFCE :=
            Finmap.mem_of_lookup_eq_some hEuW
          have hucm : fcd.id ∈ u.contracts := by
            rw [← hrc]
            exact Finmap.mem_insert.2 (Or.inl rfl)
          rw [fcdApply]
          simp [FCComp.inDbHeight, hdir, hEuW, hrsu, hucm, huwm, hidb]
          refine ⟨?_, hsync, rfl, ?_⟩
          · rw [← hrc, fmEraseInsert _ _ _ hFC]
          · intro x
            by_cases hx : x = fcd.fileContract.windowEnd
            · subst hx
              rw [Finmap.lookup_insert, hwdb]
              exact Or.inl rfl
            · rw [Finmap.lookup_insert_of_ne _ hx]
              exact fceLeakLE_shrink _ _ hrleak x hx
      | none =>
        have hwmem : fcd.fileContract.windowEnd ∉ p.dbFCE :=
          Finmap.lookup_eq_none.1 hwdb
        rw [fcdApply] at h
        simp [FCComp.inDbHeight, hc0, hdir, hwdb, hwmem, hsync, hFC,
          Finmap.lookup_insert] at h
        subst h
        dsimp only at hrc hrs1 hrleak
        have hEuW : u.dbFCE.lookup fcd.fileContract.windowEnd = some {fcd.id} :=
          fceLeakLookup _ _ hrleak _ _ (Finmap.lookup_insert _)
        have huwm : fcd.fileContract.windowEnd ∈ u.dbFCE :=
          Finmap.mem_of_lookup_eq_some hEuW
        have hucm : fcd.id ∈ u.contracts := by
          rw [← hrc]
          exact Finmap.mem_insert.2 (Or.inl rfl)
        rw [fcdApply]
        simp [FCComp.inDbHeight, hdir, hEuW, hrsu, hucm, huwm]
        refine ⟨?_, hsync, rfl, ?_⟩
        · rw [← hrc, fmEraseInsert _ _ _ hFC]
        · intro x
          by_cases hx : x = fcd.fileContract.windowEnd
          · subst hx
            rw [Finmap.lookup_insert, hwdb]
            exact Or.inr ⟨rfl, rfl⟩
          · rw [Finmap.lookup_insert_of_ne _ hx]
            exact fceLeakLE_shrink _ _ hrleak x hx
    | revert =>
      have hFC : fcd.id ∈ p.contracts := by
        by_contra hn
        exact hc0 (by simp [hn, hdir])
      have hv : p.contracts.lookup fcd.id = some fcd.fileContract := by
        rw [fcdMatch, if_neg (by rw [hdir]; exact fun hh => by cases hh)] at hm
        exact of_decide_eq_true hm
      cases hwdb : p.dbFCE.lookup fcd.fileContract.windowEnd with
      | none =>
        rw [fcdApply] at h
        simp [FCComp.inDbHeight, hc0, hdir, hwdb, hFC,
          Finmap.lookup_eq_none.1 hwdb] at h
      | some dbB =>
        have hwmem : fcd.fileContract.windowEnd ∈ p.dbFCE :=
          Finmap.mem_of_lookup_eq_some hwdb
        by_cases hidb : fcd.id ∈ dbB
        · rw [fcdApply] at h
          simp [FCComp.inDbHeight, hc0, hdir, hwdb, hwmem, hidb, hFC, hsync] at h
          subst h
          dsimp only at hrc hrs1 hrleak
          have hEuW : u.dbFCE.lookup fcd.fileContract.windowEnd =
              some (dbB.erase fcd.id) :=
            fceLeakLookup _ _ hrleak _ _ (Finmap.lookup_insert _)
          have huwm : fcd.fileContract.windowEnd ∈ u.dbFCE :=
            Finmap.mem_of_lookup_eq_some hEuW
          have hucm : fcd.id ∉ u.contracts := by
            rw [← hrc]
            simp [Finmap.mem_erase]
          rw [fcdApply]
          simp [FCComp.inDbHeight, hdir, hEuW, hrsu, hucm, huwm, Finset.not_mem_erase]
          refine ⟨?_, hsync, rfl, ?_⟩
          · rw [← hrc, fmInsertErase _ _ _ hv]
          · intro x
            by_cases hx : x = fcd.fileContract.windowEnd
            · subst hx
              rw [Finmap.lookup_insert, hwdb, Finset.insert_erase hidb]
              exact Or.inl rfl
            · rw [Finmap.lookup_insert_of_ne _ hx]
              exact fceLeakLE_shrink _ _ hrleak x hx
        · rw [fcdApply] at h
          simp [FCComp.inDbHeight, hc0, hdir, hwdb, hwmem, hidb, hFC] at h


theorem fcdStepReapply (p pp t : FCComp) (fcd : FileContractDiff)
    (h : fcdApply true p fcd .apply = .ok pp)
    (hsync : p.memFCE = p.dbFCE)
    (hr : fcR p t) :
    ∃ t', fcdApply true t fcd .apply = .ok t' ∧ fcR pp t' := by
  obtain ⟨hrc, _, hrst, hrleak⟩ := hr
  by_cases hc0 : (decide ((fcd.id ∈ p.contracts) = (fcd.direction = DiffDirection.apply)) &&
      true) = true
  · rw [fcdApply, if_pos hc0] at h
    cases h
  · cases hdir : fcd.direction with
    | apply =>
      have hFC : fcd.id ∉ p.contracts := by
        intro hmm
        exact hc0 (by simp [hmm, hdir])
      have htFC : fcd.id ∉ t.contracts := by
        rw [← hrc]
        exact hFC
      cases hwdb : p.dbFCE.lookup fcd.fileContract.windowEnd with
      | some dbB =>
        have hwmem : fcd.fileContract.windowEnd ∈ p.dbFCE :=
          Finmap.mem_of_lookup_eq_some hwdb
        by_cases hidb : fcd.id ∈ dbB
        · rw [fcdApply] at h
          simp [FCComp.inDbHeight, hc0, hdir, hwdb, hwmem, hidb, hFC] at h
        · rw [fcdApply] at h
          simp [FCComp.inDbHeight, hc0, hdir, hwdb, hwmem, hsync, hFC, hidb] at h
          subst h
          have hEtW : t.dbFCE.lookup fcd.fileContract.windowEnd = some dbB :=
            fceLeakLookup _ _ hrleak _ _ hwdb
          have htwm : fcd.fileContract.windowEnd ∈ t.dbFCE :=
            Finmap.mem_of_lookup_eq_some hEtW
          rw [fcdApply]
          simp [FCComp.inDbHeight, hdir, hEtW, hrst, htFC, htwm, hidb]
          refine ⟨by rw [hrc], rfl, rfl, ?_⟩
          exact fceLeakLE_insert _ _ hrleak _ _
      | none =>
        have hwmem : fcd.fileContract.windowEnd ∉ p.dbFCE :=
          Finmap.lookup_eq_none.1 hwdb
        rw [fcdApply] at h
        simp [FCComp.inDbHeight, hc0, hdir, hwdb, hwmem, hsync, hFC,
          Finmap.lookup_insert] at h
        subst h
        rcases hrleak fcd.fileContract.windowEnd with heq | ⟨hnone2, hsome2⟩
        · have hEtW : t.dbFCE.lookup fcd.fileContract.windowEnd = none := by
            rw [heq, hwdb]
          have htwm : fcd.fileContract.windowEnd ∉ t.dbFCE :=
            Finmap.lookup_eq_none.1 hEtW
          rw [fcdApply]
          simp [FCComp.inDbHeight, hdir, hEtW, hrst, htFC, htwm,
            Finmap.lookup_insert, fmInsertInsert]
          refine ⟨by rw [hrc], rfl, rfl, ?_⟩
          exact fceLeakLE_insert _ _ hrleak _ _
        · have htwm : fcd.fileContract.windowEnd ∈ t.dbFCE :=
            Finmap.mem_of_lookup_eq_some hsome2
          rw [fcdApply]
          simp [FCComp.inDbHeight, hdir, hsome2, hrst, htFC, htwm]
          refine ⟨by rw [hrc], rfl, rfl, ?_⟩
          intro x
          by_cases hx : x = fcd.fileContract.windowEnd
          · subst hx
            rw [Finmap.lookup_insert, Finmap.lookup_insert]
            exact Or.inl rfl
          · rw [Finmap.lookup_insert_of_ne _ hx, Finmap.lookup_insert_of_ne _ hx]
            exact hrleak x
    | revert =>
      have hFC : fcd.id ∈ p.contracts := by
        by_contra hn
        exact hc0 (by simp [hn, hdir])
      have htFC : fcd.id ∈ t.contracts := by
        rw [← hrc]
        exact hFC
      cases hwdb : p.dbFCE.lookup fcd.fileContract.windowEnd with
      | none =>
        rw [fcdApply] at h
        simp [FCComp.inDbHeight, hc0, hdir, hwdb, hFC,
          Finmap.lookup_eq_none.1 hwdb] at h
      | some dbB =>
        have hwmem : fcd.fileContract.windowEnd ∈ p.dbFCE :=
          Finmap.mem_of_lookup_eq_some hwdb
        by_cases hidb : fcd.id ∈ dbB
        · rw [fcdApply] at h
          simp [FCComp.inDbHeight, hc0, hdir, hwdb, hwmem, hidb, hFC, hsync] at h
          subst h
          have hEtW : t.dbFCE.lookup fcd.fileContract.windowEnd = some dbB :=
            fceLeakLookup _ _ hrleak _ _ hwdb
          have htwm : fcd.fileContract.windowEnd ∈ t.dbFCE :=
            Finmap.mem_of_lookup_eq_some hEtW
          rw [fcdApply]
          simp [FCComp.inDbHeight, hdir, hEtW, hrst, htFC, htwm, hidb]
          refine ⟨by rw [hrc], rfl, rfl, ?_⟩
          exact fceLeakLE_insert _ _ hrleak _ _
        · rw [fcdApply] at h
          simp [FCComp.inDbHeight, hc0, hdir, hwdb, hwmem, hidb, hFC] at h


/-! ### Generic facts about `commitList` -/

theorem commitList_cons {α : Type}
    (f : ConsensusSet → α → DiffDirection → Except CError ConsensusSet)
    (cs : ConsensusSet) (d : α) (t : List α) (dir : DiffDirection) :
    commitList f cs (d :: t) dir =
      match f cs d dir with
      | .error e => .error e
      | .ok cs1 => commitList f cs1 t dir := rfl

theorem commitListSCChar (dir : DiffDirection) (l : List SiacoinOutputDiff) :
    ∀ cs : ConsensusSet, commitList commitSiacoinOutputDiff cs l dir =
      (foldDiffs (fun t d => scodApply cs.updateDatabase t d dir) cs.dbSiacoinOutputs l).map
        (fun t => { cs with dbSiacoinOutputs := t }) := by
  induction l with
  | nil => intro cs; rfl
  | cons d t ih =>
    intro cs
    rw [commitList_cons, foldDiffs_cons, scodCommitChar]
    cases hg : scodApply cs.updateDatabase cs.dbSiacoinOutputs d dir with
    | error e => rfl
    | ok t1 =>
      show commitList commitSiacoinOutputDiff { cs with dbSiacoinOutputs := t1 } t dir = _
      rw [ih { cs with dbSiacoinOutputs := t1 }]

theorem commitListSFChar (dir : DiffDirection) (l : List SiafundOutputDiff) :
    ∀ cs : ConsensusSet, commitList commitSiafundOutputDiff cs l dir =
      (foldDiffs (fun t d => sfodApply cs.updateDatabase t d dir) cs.dbSiafundOutputs l).map
        (fun t => { cs with dbSiafundOutputs := t }) := by
  induction l with
  | nil => intro cs; rfl
  | cons d t ih =>
    intro cs
    rw [commitList_cons, foldDiffs_cons, sfodCommitChar]
    cases hg : sfodApply cs.updateDatabase cs.dbSiafundOutputs d dir with
    | error e => rfl
    | ok t1 =>
      show commitList commitSiafundOutputDiff { cs with dbSiafundOutputs := t1 } t dir = _
      rw [ih { cs with dbSiafundOutputs := t1 }]

theorem commitListDSCChar (dir : DiffDirection) (l : List DelayedSiacoinOutputDiff) :
    ∀ cs : ConsensusSet, commitList commitDelayedSiacoinOutputDiff cs l dir =
      (foldDiffs (fun t d => dscodApply cs.updateDatabase t d dir)
          cs.dbDelayedSiacoinOutputs l).map
        (fun t => { cs with dbDelayedSiacoinOutputs := t }) := by
  induction l with
  | nil => intro cs; rfl
  | cons d t ih =>
    intro cs
    rw [commitList_cons, foldDiffs_cons, dscodCommitChar]
    cases hg : dscodApply cs.updateDatabase cs.dbDelayedSiacoinOutputs d dir with
    | error e => rfl
    | ok t1 =>
      show commitList commitDelayedSiacoinOutputDiff
        { cs with dbDelayedSiacoinOutputs := t1 } t dir = _
      rw [ih { cs with dbDelayedSiacoinOutputs := t1 }]

theorem commitListPoolChar (dir : DiffDirection) (l : List SiafundPoolDiff) :
    ∀ cs : ConsensusSet, commitList commitSiafundPoolDiff cs l dir =
      (foldDiffs (fun x d => sfpdApply x d dir) cs.siafundPool l).map
        (fun x => { cs with siafundPool := x }) := by
  induction l with
  | nil => intro cs; rfl
  | cons d t ih =>
    intro cs
    rw [commitList_cons, foldDiffs_cons, sfpdCommitChar]
    cases hg : sfpdApply cs.siafundPool d dir with
    | error e => rfl
    | ok x1 =>
      show commitList commitSiafundPoolDiff { cs with siafundPool := x1 } t dir = _
      rw [ih { cs with siafundPool := x1 }]

theorem commitListFCChar (dir : DiffDirection) (l : List FileContractDiff) :
    ∀ cs : ConsensusSet, commitList commitFileContractDiff cs l dir =
      (foldDiffs (fun p d => fcdApply cs.updateDatabase p d dir)
          ⟨cs.dbFileContracts, cs.fileContractExpirations, cs.dbFCExpirations⟩ l).map
        (fun p => { cs with dbFileContracts := p.contracts,
                            fileContractExpirations := p.memFCE,
                            dbFCExpirations := p.dbFCE }) := by
  induction l with
  | nil => intro cs; rfl
  | cons d t ih =>
    intro cs
    rw [commitList_cons, foldDiffs_cons, fcodCommitChar]
    cases hg : fcdApply cs.updateDatabase
        ⟨cs.dbFileContracts, cs.fileContractExpirations, cs.dbFCExpirations⟩ d dir with
    | error e => rfl
    | ok p1 =>
      show commitList commitFileContractDiff
        { cs with dbFileContracts := p1.contracts,
                  fileContractExpirations := p1.memFCE,
                  dbFCExpirations := p1.dbFCE } t dir = _
      rw [ih { cs with dbFileContracts := p1.contracts,
                       fileContractExpirations := p1.memFCE,
                       dbFCExpirations := p1.dbFCE }]

theorem exceptCasesOk {γ : Type} (x : Except CError ConsensusSet)
    (g : ConsensusSet → Except CError γ) (y : γ)
    (h : (match x with
          | .error e => (.error e : Except CError γ)
          | .ok a => g a) = .ok y) :
    ∃ a, x = .ok a ∧ g a = .ok y := by
  cases x with
  | error e => cases h
  | ok a => exact ⟨a, rfl, h⟩

theorem exceptMapOk {α β : Type} (x : Except CError α) (f : α → β) (y : β)
    (h : Except.map f x = .ok y) : ∃ a, x = .ok a ∧ y = f a := by
  cases x with
  | error e => cases h
  | ok a =>
    refine ⟨a, rfl, ?_⟩
    cases h
    rfl

theorem commitNodeDiffsChar (cs : ConsensusSet) (pb : processedBlock) (dir : DiffDirection) :
    commitNodeDiffs cs pb dir =
      (nodeFold cs.updateDatabase cs.comps pb dir).map cs.setComps := by
  cases dir
  case apply =>
    simp only [commitNodeDiffs, reduceIte, nodeFold, ConsensusSet.comps, orderFor]
    rw [commitListSCChar]
    cases hg1 : foldDiffs (fun t d => scodApply cs.updateDatabase t d .apply)
        cs.dbSiacoinOutputs pb.siacoinOutputDiffs with
    | error e => rfl
    | ok sc1 =>
      dsimp only [Except.map]
      rw [commitListFCChar]
      dsimp only
      cases hg2 : foldDiffs (fun p d => fcdApply cs.updateDatabase p d .apply)
          (⟨cs.dbFileContracts, cs.fileContractExpirations, cs.dbFCExpirations⟩ : FCComp)
          pb.fileContractDiffs with
      | error e => rfl
      | ok fcc1 =>
        dsimp only [Except.map]
        rw [commitListSFChar]
        dsimp only
        cases hg3 : foldDiffs (fun t d => sfodApply cs.updateDatabase t d .apply)
            cs.dbSiafundOutputs pb.siafundOutputDiffs with
        | error e => rfl
        | ok sf1 =>
          dsimp only [Except.map]
          rw [commitListDSCChar]
          dsimp only
          cases hg4 : foldDiffs (fun t d => dscodApply cs.updateDatabase t d .apply)
              cs.dbDelayedSiacoinOutputs pb.delayedSiacoinOutputDiffs with
          | error e => rfl
          | ok dsc1 =>
            dsimp only [Except.map]
            rw [commitListPoolChar]
            dsimp only
            cases hg5 : foldDiffs (fun x d => sfpdApply x d .apply)
                cs.siafundPool pb.siafundPoolDiffs with
            | error e => rfl
            | ok pool1 => rfl
  case revert =>
    simp only [commitNodeDiffs, nodeFold, ConsensusSet.comps, orderFor]
    rw [if_neg (show ¬(DiffDirection.revert = DiffDirection.apply) by decide)]
    rw [commitListSCChar]
    cases hg1 : foldDiffs (fun t d => scodApply cs.updateDatabase t d .revert)
        cs.dbSiacoinOutputs pb.siacoinOutputDiffs.reverse with
    | error e => rfl
    | ok sc1 =>
      dsimp only [Except.map]
      rw [commitListFCChar]
      dsimp only
      cases hg2 : foldDiffs (fun p d => fcdApply cs.updateDatabase p d .revert)
          (⟨cs.dbFileContracts, cs.fileContractExpirations, cs.dbFCExpirations⟩ : FCComp)
          pb.fileContractDiffs.reverse with
      | error e => rfl
      | ok fcc1 =>
        dsimp only [Except.map]
        rw [commitListSFChar]
        dsimp only
        cases hg3 : foldDiffs (fun t d => sfodApply cs.updateDatabase t d .revert)
            cs.dbSiafundOutputs pb.siafundOutputDiffs.reverse with
        | error e => rfl
        | ok sf1 =>
          dsimp only [Except.map]
          rw [commitListDSCChar]
          dsimp only
          cases hg4 : foldDiffs (fun t d => dscodApply cs.updateDatabase t d .revert)
              cs.dbDelayedSiacoinOutputs pb.delayedSiacoinOutputDiffs.reverse with
          | error e => rfl
          | ok dsc1 =>
            dsimp only [Except.map]
            rw [commitListPoolChar]
            dsimp only
            cases hg5 : foldDiffs (fun x d => sfpdApply x d .revert)
                cs.siafundPool pb.siafundPoolDiffs.reverse with
            | error e => rfl
            | ok pool1 => rfl

/-! ### Generic facts about `commitList` (iteration order) -/

theorem commitList_eq_commitFold {α : Type}
    (f : ConsensusSet → α → DiffDirection → Except CError ConsensusSet) :
    ∀ (l : List α) (cs : ConsensusSet) (dir : DiffDirection),
      commitList f cs l dir = commitFold f dir cs l := by
  intro l
  induction l with
  | nil => intro cs dir; rfl
  | cons d t ih =>
    intro cs dir
    show (match f cs d dir with
          | Except.error e => (Except.error e : Except CError ConsensusSet)
          | Except.ok cs1 => commitList f cs1 t dir) = _
    cases h : f cs d dir with
    | error e => simp [commitFold, List.foldlM, h, Bind.bind, Except.bind]
    | ok cs1 => simp [commitFold, List.foldlM, h, Bind.bind, Except.bind, ih cs1 dir]

/-- C3 — `commitNodeDiffs` follows the spec's iteration contract: forward
recorded order per list on Apply, reverse recorded order per list on
Revert, the five lists always taken in the category order {siacoin, file
contract, siafund, delayed siacoin, siafund pool}, each per-diff call
receiving the requested commit direction. -/
theorem commitNodeDiffs_iteration_contract (cs : ConsensusSet) (pb : processedBlock)
    (dir : DiffDirection) : commitNodeDiffs cs pb dir = commitNodeDiffsSpec cs pb dir := by
  have key : ∀ (u : ConsensusSet) (dr : DiffDirection)
      (l1 : List SiacoinOutputDiff) (l2 : List FileContractDiff)
      (l3 : List SiafundOutputDiff) (l4 : List DelayedSiacoinOutputDiff)
      (l5 : List SiafundPoolDiff),
      (match commitList commitSiacoinOutputDiff u l1 dr with
       | .error e => .error e
       | .ok u1 =>
       match commitList commitFileContractDiff u1 l2 dr with
       | .error e => .error e
       | .ok u2 =>
       match commitList commitSiafundOutputDiff u2 l3 dr with
       | .error e => .error e
       | .ok u3 =>
       match commitList commitDelayedSiacoinOutputDiff u3 l4 dr with
       | .error e => .error e
       | .ok u4 => commitList commitSiafundPoolDiff u4 l5 dr) =
      (do
        let u1 ← commitFold commitSiacoinOutputDiff dr u l1
        let u2 ← commitFold commitFileContractDiff dr u1 l2
        let u3 ← commitFold commitSiafundOutputDiff dr u2 l3
        let u4 ← commitFold commitDelayedSiacoinOutputDiff dr u3 l4
        commitFold commitSiafundPoolDiff dr u4 l5) := by
    have matchBindEq : ∀ (x : Except CError ConsensusSet)
        (g : ConsensusSet → Except CError ConsensusSet),
        (match x with | .error e => .error e | .ok a => g a) = x >>= g := by
      intro x g
      cases x <;> rfl
    intro u dr l1 l2 l3 l4 l5
    simp only [commitList_eq_commitFold, matchBindEq]
  cases dir
  · simp only [commitNodeDiffs, reduceIte]
    exact key cs .apply _ _ _ _ _
  · simp only [commitNodeDiffs, reduceIte]
    exact key cs .revert _ _ _ _ _

/-- C4 — per-diff commit semantics: when the diff's recorded direction
equals the requested direction the commit inserts the referenced entry
into its table, otherwise it deletes it; for siacoin-output, siafund-output
and delayed-siacoin-output diffs. -/
theorem single_diff_commit_semantics :
    (∀ (cs : ConsensusSet) (d : SiacoinOutputDiff) (dir : DiffDirection) (cs' : ConsensusSet),
      cs.updateDatabase = true →
      commitSiacoinOutputDiff cs d dir = .ok cs' →
      cs' = { cs with dbSiacoinOutputs :=
        if d.direction = dir then cs.dbSiacoinOutputs.insert d.id d.siacoinOutput
        else cs.dbSiacoinOutputs.erase d.id }) ∧
    (∀ (cs : ConsensusSet) (d : SiafundOutputDiff) (dir : DiffDirection) (cs' : ConsensusSet),
      cs.updateDatabase = true →
      commitSiafundOutputDiff cs d dir = .ok cs' →
      cs' = { cs with dbSiafundOutputs :=
        if d.direction = dir then cs.dbSiafundOutputs.insert d.id d.siafundOutput
        else cs.dbSiafundOutputs.erase d.id }) ∧
    (∀ (cs : ConsensusSet) (d : DelayedSiacoinOutputDiff) (dir : DiffDirection) (cs' : ConsensusSet),
      cs.updateDatabase = true →
      commitDelayedSiacoinOutputDiff cs d dir = .ok cs' →
      ∃ bucket, cs.dbDelayedSiacoinOutputs.lookup d.maturityHeight = some bucket ∧
        cs' = { cs with dbDelayedSiacoinOutputs :=
                          cs.dbDelayedSiacoinOutputs.insert d.maturityHeight
                            (if d.direction = dir then bucket.insert d.id d.siacoinOutput
                             else bucket.erase d.id) }) := by
  refine ⟨?_, ?_, ?_⟩
  · intro cs d dir cs' hupd h
    rw [commitSiacoinOutputDiff, hupd] at h
    simp only [Bool.not_true, Bool.false_eq_true, if_false] at h
    split at h
    · exact absurd h (by simp)
    · split at h
      · cases h; simp [*]
      · cases h; simp [*]
  · intro cs d dir cs' hupd h
    rw [commitSiafundOutputDiff, hupd] at h
    simp only [Bool.not_true, Bool.false_eq_true, if_false] at h
    split at h
    · exact absurd h (by simp)
    · split at h
      · cases h; simp [*]
      · cases h; simp [*]
  · intro cs d dir cs' hupd h
    rw [commitDelayedSiacoinOutputDiff, hupd] at h
    simp only [Bool.not_true, Bool.false_eq_true, if_false] at h
    split at h
    · exact absurd h (by simp)
    case h_2 bucket hb =>
      split at h
      · exact absurd h (by simp)
      · split at h
        · cases h; exact ⟨bucket, hb, by simp [*]⟩
        · cases h; exact ⟨bucket, hb, by simp [*]⟩

/-- Witness for C4 at a concrete state: inserting coin output 2, deleting
coin output 1, and deleting delayed output 5 from the bucket at height
200. -/
theorem single_diff_commit_semantics_witness :
    wCS.updateDatabase = true ∧
    (∃ cs', commitSiacoinOutputDiff wCS ⟨.apply, 2, ⟨50, 0⟩⟩ .apply = .ok cs' ∧
      cs' = { wCS with dbSiacoinOutputs :=
        if (⟨.apply, 2, ⟨50, 0⟩⟩ : SiacoinOutputDiff).direction = .apply then
          wCS.dbSiacoinOutputs.insert 2 ⟨50, 0⟩
        else wCS.dbSiacoinOutputs.erase 2 }) ∧
    (∃ cs', commitSiacoinOutputDiff wCS ⟨.revert, 1, ⟨100, 0⟩⟩ .apply = .ok cs' ∧
      cs' = { wCS with dbSiacoinOutputs :=
        if (⟨.revert, 1, ⟨100, 0⟩⟩ : SiacoinOutputDiff).direction = .apply then
          wCS.dbSiacoinOutputs.insert 1 ⟨100, 0⟩
        else wCS.dbSiacoinOutputs.erase 1 }) := by
  have h1 : commitSiacoinOutputDiff wCS ⟨.apply, 2, ⟨50, 0⟩⟩ .apply =
      .ok { wCS with dbSiacoinOutputs := wCS.dbSiacoinOutputs.insert 2 ⟨50, 0⟩ } := by decide
  have h2 : commitSiacoinOutputDiff wCS ⟨.revert, 1, ⟨100, 0⟩⟩ .apply =
      .ok { wCS with dbSiacoinOutputs := wCS.dbSiacoinOutputs.erase 1 } := by decide
  exact ⟨rfl,
    ⟨_, h1, single_diff_commit_semantics.1 wCS ⟨.apply, 2, ⟨50, 0⟩⟩ .apply _ rfl h1⟩,
    ⟨_, h2, single_diff_commit_semantics.1 wCS ⟨.revert, 1, ⟨100, 0⟩⟩ .apply _ rfl h2⟩⟩

/-- C5 — `commitSiafundPoolDiff` errors exactly when the diff's direction
is not Apply, or `adjusted < previous`, or the current pool does not match
`previous` (Apply) / `adjusted` (Revert); otherwise the pool becomes
`adjusted` on Apply and `previous` on Revert. -/
theorem siafund_pool_diff_commit (cs : ConsensusSet) (sfpd : SiafundPoolDiff)
    (dir : DiffDirection) :
    ((∃ e, commitSiafundPoolDiff cs sfpd dir = .error e) ↔
      (sfpd.direction ≠ .apply ∨ sfpd.adjusted < sfpd.previous ∨
       (dir = .apply ∧ cs.siafundPool ≠ sfpd.previous) ∨
       (dir = .revert ∧ cs.siafundPool ≠ sfpd.adjusted))) ∧
    (∀ cs', commitSiafundPoolDiff cs sfpd dir = .ok cs' →
      cs' = { cs with siafundPool :=
        if dir = .apply then sfpd.adjusted else sfpd.previous }) := by
  constructor
  · constructor
    · rintro ⟨e, he⟩
      rw [commitSiafundPoolDiff] at he
      split at he
      next h1 => exact Or.inr (Or.inl h1)
      next h1 =>
        split at he
        next h2 => exact Or.inl h2
        next h2 =>
          split at he
          next h3 =>
            split at he
            next h4 => exact Or.inr (Or.inr (Or.inl ⟨h3, h4⟩))
            next h4 => cases he
          next h3 =>
            have h3r : dir = .revert := by
              cases dir
              · exact absurd rfl h3
              · rfl
            split at he
            next h4 => exact Or.inr (Or.inr (Or.inr ⟨h3r, h4⟩))
            next h4 => cases he
    · intro hd
      cases hc : commitSiafundPoolDiff cs sfpd dir with
      | error e => exact ⟨e, rfl⟩
      | ok cs1 =>
        exfalso
        rw [commitSiafundPoolDiff] at hc
        split at hc
        · cases hc
        split at hc
        · cases hc
        rename_i h1 h2
        rw [Decidable.not_not] at h2
        split at hc
        next h3 =>
          split at hc
          · cases hc
          next h4 =>
            rw [Decidable.not_not] at h4
            rcases hd with h | h | ⟨_, h⟩ | ⟨hr, _⟩
            · exact h h2
            · exact h1 h
            · exact h h4
            · rw [h3] at hr; cases hr
        next h3 =>
          split at hc
          · cases hc
          next h4 =>
            rw [Decidable.not_not] at h4
            rcases hd with h | h | ⟨ha, _⟩ | ⟨_, h⟩
            · exact h h2
            · exact h1 h
            · exact h3 ha
            · exact h h4
  · intro cs' h
    rw [commitSiafundPoolDiff] at h
    split at h
    · cases h
    split at h
    · cases h
    split at h
    next h3 =>
      split at h
      · cases h
      · cases h
        rw [if_pos h3]
    next h3 =>
      split at h
      · cases h
      · cases h
        rw [if_neg h3]

/-- Witness for C5: applying the pool diff {previous 10, adjusted 15} at a
pool of 10 succeeds and sets the pool to 15; reverting a non-matching pool
errors. -/
theorem siafund_pool_diff_commit_witness :
    (∃ cs', commitSiafundPoolDiff wCS ⟨.apply, 10, 15⟩ .apply = .ok cs' ∧
      cs' = { wCS with siafundPool :=
        if DiffDirection.apply = DiffDirection.apply then 15 else 10 }) ∧
    (∃ e, commitSiafundPoolDiff wCS ⟨.apply, 10, 15⟩ .revert = .error e) := by
  have h1 : commitSiafundPoolDiff wCS ⟨.apply, 10, 15⟩ .apply =
      .ok { wCS with siafundPool := 15 } := by decide
  exact ⟨⟨_, h1, (siafund_pool_diff_commit wCS ⟨.apply, 10, 15⟩ .apply).2 _ h1⟩,
    (siafund_pool_diff_commit wCS ⟨.apply, 10, 15⟩ .revert).1.2
      (Or.inr (Or.inr (Or.inr ⟨rfl, by decide⟩)))⟩

/-- C7 — a siacoin-output diff commit raises the corruption error exactly
when the effective operation would insert an already-present id or delete
an absent id; a diff consistent with the table always commits. -/
theorem siacoin_output_diff_corruption (cs : ConsensusSet) (d : SiacoinOutputDiff)
    (dir : DiffDirection) (hupd : cs.updateDatabase = true) :
    ((commitSiacoinOutputDiff cs d dir = .error .badCommitSiacoinOutputDiff) ↔
      ((d.id ∈ cs.dbSiacoinOutputs) = (d.direction = dir))) ∧
    (((d.direction = dir ∧ d.id ∉ cs.dbSiacoinOutputs) ∨
      (d.direction ≠ dir ∧ d.id ∈ cs.dbSiacoinOutputs)) →
      ∃ cs', commitSiacoinOutputDiff cs d dir = .ok cs') := by
  rw [commitSiacoinOutputDiff, hupd]
  simp only [Bool.not_true, Bool.false_eq_true, if_false]
  constructor
  · split
    · simp [*]
    · rename_i hne
      constructor
      · split <;> intro h <;> cases h
      · intro h; exact absurd h hne
  · rintro (⟨hd, hmem⟩ | ⟨hd, hmem⟩)
    · rw [if_neg (by simp [hd, hmem]), if_pos hd]
      exact ⟨_, rfl⟩
    · rw [if_neg (by simp [hd, hmem]), if_neg hd]
      exact ⟨_, rfl⟩

/-- Witness for C7: at `wCS`, inserting fresh output 2 is consistent and
succeeds; inserting the already-present output 1 errors. -/
theorem siacoin_output_diff_corruption_witness :
    (∃ cs', commitSiacoinOutputDiff wCS ⟨.apply, 2, ⟨50, 0⟩⟩ .apply = .ok cs') ∧
    commitSiacoinOutputDiff wCS ⟨.apply, 1, ⟨100, 0⟩⟩ .apply =
      .error .badCommitSiacoinOutputDiff := by
  constructor
  · exact (siacoin_output_diff_corruption wCS ⟨.apply, 2, ⟨50, 0⟩⟩ .apply rfl).2
      (Or.inl ⟨rfl, by decide⟩)
  · exact (siacoin_output_diff_corruption wCS ⟨.apply, 1, ⟨100, 0⟩⟩ .apply rfl).1.2
      (by decide)

/-- C9 — with `updateDatabase = false`, siacoin-output, siafund-output and
delayed-siacoin-output commits are exact no-ops, while
`commitSiafundPoolDiff` still updates the in-memory pool and
`commitFileContractDiff` still mutates the in-memory
`fileContractExpirations` map (leaving every database table unchanged):
a diff-set commit is not uniformly skipped across the five diff kinds. -/
theorem database_flag_frame_effects :
    (∀ (cs : ConsensusSet) (d : SiacoinOutputDiff) (dir : DiffDirection),
      cs.updateDatabase = false → commitSiacoinOutputDiff cs d dir = .ok cs) ∧
    (∀ (cs : ConsensusSet) (d : SiafundOutputDiff) (dir : DiffDirection),
      cs.updateDatabase = false → commitSiafundOutputDiff cs d dir = .ok cs) ∧
    (∀ (cs : ConsensusSet) (d : DelayedSiacoinOutputDiff) (dir : DiffDirection),
      cs.updateDatabase = false → commitDelayedSiacoinOutputDiff cs d dir = .ok cs) ∧
    (∀ (cs : ConsensusSet) (sfpd : SiafundPoolDiff) (dir : DiffDirection) (cs' : ConsensusSet),
      cs.updateDatabase = false → commitSiafundPoolDiff cs sfpd dir = .ok cs' →
      cs'.siafundPool = (if dir = .apply then sfpd.adjusted else sfpd.previous)) ∧
    (∀ (cs : ConsensusSet) (fcd : FileContractDiff) (dir : DiffDirection) (cs' : ConsensusSet),
      cs.updateDatabase = false → commitFileContractDiff cs fcd dir = .ok cs' →
      cs' = { cs with fileContractExpirations := cs'.fileContractExpirations }) ∧
    (∃ cs fcd dir cs', ConsensusSet.updateDatabase cs = false ∧
      commitFileContractDiff cs fcd dir = .ok cs' ∧
      cs'.fileContractExpirations ≠ cs.fileContractExpirations) ∧
    (∃ cs sfpd dir cs', ConsensusSet.updateDatabase cs = false ∧
      commitSiafundPoolDiff cs sfpd dir = .ok cs' ∧
      cs'.siafundPool ≠ cs.siafundPool) := by
  refine ⟨?_, ?_, ?_, ?_, ?_, ?_, ?_⟩
  · intro cs d dir h
    rw [commitSiacoinOutputDiff, h]
    rfl
  · intro cs d dir h
    rw [commitSiafundOutputDiff, h]
    rfl
  · intro cs d dir h
    rw [commitDelayedSiacoinOutputDiff, h]
    rfl
  · intro cs sfpd dir cs' _ h
    rw [commitSiafundPoolDiff] at h
    split at h
    · cases h
    split at h
    · cases h
    split at h
    next h3 =>
      split at h
      · cases h
      · cases h
        rw [if_pos h3]
    next h3 =>
      split at h
      · cases h
      · cases h
        rw [if_neg h3]
  · intro cs fcd dir cs' hupd h
    rw [commitFileContractDiff] at h
    simp only [hupd, Bool.and_false, Bool.false_eq_true, if_false, Bool.not_false,
      Bool.and_true, if_true, reduceIte] at h
    split at h
    · split at h
      · cases h
      · split at h
        · cases h
        · cases h
          rw [hupd]
    · cases h
      rw [hupd]
  · refine ⟨wCSoff, ⟨.apply, 6, ⟨1, 1, 500, []⟩⟩, .apply,
      { wCSoff with fileContractExpirations :=
          wCSoff.fileContractExpirations.insert 500 (insert 6 ∅) }, rfl, ?_, ?_⟩
    · decide
    · decide
  · exact ⟨wCSoff, ⟨.apply, 10, 15⟩, .apply, { wCSoff with siafundPool := 15 },
      rfl, by decide, by decide⟩

/-- Witness for C9: concrete no-op commits at `wCSoff`, and the pool and
expiration-map effects concluded from the theorem. -/
theorem database_flag_frame_effects_witness :
    commitSiacoinOutputDiff wCSoff ⟨.apply, 2, ⟨50, 0⟩⟩ .apply = .ok wCSoff ∧
    commitSiafundOutputDiff wCSoff ⟨.apply, 3, ⟨4, 0⟩⟩ .apply = .ok wCSoff ∧
    commitDelayedSiacoinOutputDiff wCSoff ⟨.apply, 9, ⟨3, 0⟩, 344⟩ .apply = .ok wCSoff ∧
    (∃ cs', commitSiafundPoolDiff wCSoff ⟨.apply, 10, 15⟩ .apply = .ok cs' ∧
      cs'.siafundPool = (if DiffDirection.apply = DiffDirection.apply then 15 else 10)) := by
  have h1 : commitSiafundPoolDiff wCSoff ⟨.apply, 10, 15⟩ .apply =
      .ok { wCSoff with siafundPool := 15 } := by decide
  exact ⟨database_flag_frame_effects.1 wCSoff ⟨.apply, 2, ⟨50, 0⟩⟩ .apply rfl,
    database_flag_frame_effects.2.1 wCSoff ⟨.apply, 3, ⟨4, 0⟩⟩ .apply rfl,
    database_flag_frame_effects.2.2.1 wCSoff ⟨.apply, 9, ⟨3, 0⟩, 344⟩ .apply rfl,
    ⟨_, h1, database_flag_frame_effects.2.2.2.1 wCSoff ⟨.apply, 10, 15⟩ .apply _ rfl h1⟩⟩

end Siad

namespace Siad

/-- A fold that succeeds trivially satisfies the vacuous value check. -/
theorem listMatchOfFold {σ α : Type} (ga : σ → α → Except CError σ) :
    ∀ (l : List α) (s s1 : σ), foldDiffs ga s l = .ok s1 →
      listMatch (fun _ _ => true) ga s l = true := by
  intro l
  induction l with
  | nil => intro s s1 _; rfl
  | cons d t ih =>
    intro s s1 h
    cases hg : ga s d with
    | error e =>
      rw [foldDiffs_cons, hg] at h
      cases h
    | ok sd =>
      rw [foldDiffs_cons, hg] at h
      rw [listMatch_cons, hg]
      simp only [Bool.true_and]
      exact ih sd s1 h

/-- One apply-direction file-contract step keeps the two expiration
indexes synchronized. -/
theorem fcdApplySync (p q : FCComp) (fcd : FileContractDiff)
    (h : fcdApply true p fcd .apply = .ok q) (hs : p.memFCE = p.dbFCE) :
    q.memFCE = q.dbFCE := by
  obtain ⟨t', _, hr⟩ := fcdStepReapply p q p fcd h hs ⟨rfl, hs, hs, fun _ => Or.inl rfl⟩
  exact hr.2.1

/-- An apply-direction file-contract fold keeps the two expiration
indexes synchronized. -/
theorem foldFCSync :
    ∀ (l : List FileContractDiff) (p q : FCComp),
      foldDiffs (fun p d => fcdApply true p d .apply) p l = .ok q →
      p.memFCE = p.dbFCE → q.memFCE = q.dbFCE := by
  intro l
  induction l with
  | nil =>
    intro p q h hs
    cases h
    exact hs
  | cons d t ih =>
    intro p q h hs
    cases hg : fcdApply true p d .apply with
    | error e =>
      rw [foldDiffs_cons, hg] at h
      cases h
    | ok p1 =>
      rw [foldDiffs_cons, hg] at h
      exact ih p1 q h (fcdApplySync p p1 d hg hs)

/-- A consistent apply-direction file-contract run starting from a
synchronized state is consistent in the strengthened sense that records
the synchronization at every step. -/
theorem listMatchFCSync :
    ∀ (l : List FileContractDiff) (p : FCComp),
      listMatch fcdMatch (fun p d => fcdApply true p d .apply) p l = true →
      p.memFCE = p.dbFCE →
      listMatch fcdMatchS (fun p d => fcdApply true p d .apply) p l = true := by
  intro l
  induction l with
  | nil => intro p _ _; rfl
  | cons d t ih =>
    intro p hm hs
    cases hg : fcdApply true p d .apply with
    | error e =>
      rw [listMatch_cons, hg] at hm
      simp at hm
    | ok q =>
      rw [listMatch_cons, hg] at hm
      simp only [Bool.and_eq_true] at hm
      rw [listMatch_cons, hg]
      simp only [Bool.and_eq_true]
      exact ⟨by simp [fcdMatchS, hm.1, hs], ih q hm.2 (fcdApplySync p q d hg hs)⟩

/-- Success of the componentwise fold decomposes into success of the
five per-category folds. -/
theorem nodeFoldOk (upd : Bool) (c : Comps) (pb : processedBlock) (dir : DiffDirection)
    (c1 : Comps) (h : nodeFold upd c pb dir = .ok c1) :
    foldDiffs (fun t d => scodApply upd t d dir) c.sc
        (orderFor dir pb.siacoinOutputDiffs) = .ok c1.sc ∧
    foldDiffs (fun p d => fcdApply upd p d dir) c.fcc
        (orderFor dir pb.fileContractDiffs) = .ok c1.fcc ∧
    foldDiffs (fun t d => sfodApply upd t d dir) c.sf
        (orderFor dir pb.siafundOutputDiffs) = .ok c1.sf ∧
    foldDiffs (fun t d => dscodApply upd t d dir) c.dsc
        (orderFor dir pb.delayedSiacoinOutputDiffs) = .ok c1.dsc ∧
    foldDiffs (fun x d => sfpdApply x d dir) c.pool
        (orderFor dir pb.siafundPoolDiffs) = .ok c1.pool := by
  rw [nodeFold] at h
  cases h1 : foldDiffs (fun t d => scodApply upd t d dir) c.sc
      (orderFor dir pb.siacoinOutputDiffs) with
  | error e => rw [h1] at h; cases h
  | ok sc1 =>
    rw [h1] at h
    cases h2 : foldDiffs (fun p d => fcdApply upd p d dir) c.fcc
        (orderFor dir pb.fileContractDiffs) with
    | error e => rw [h2] at h; cases h
    | ok fcc1 =>
      rw [h2] at h
      cases h3 : foldDiffs (fun t d => sfodApply upd t d dir) c.sf
          (orderFor dir pb.siafundOutputDiffs) with
      | error e => rw [h3] at h; cases h
      | ok sf1 =>
        rw [h3] at h
        cases h4 : foldDiffs (fun t d => dscodApply upd t d dir) c.dsc
            (orderFor dir pb.delayedSiacoinOutputDiffs) with
        | error e => rw [h4] at h; cases h
        | ok dsc1 =>
          rw [h4] at h
          cases h5 : foldDiffs (fun x d => sfpdApply x d dir) c.pool
              (orderFor dir pb.siafundPoolDiffs) with
          | error e => rw [h5] at h; cases h
          | ok pool1 =>
            rw [h5] at h
            cases h
            exact ⟨rfl, rfl, rfl, rfl, rfl⟩

/-- Success of the five per-category folds composes into success of the
componentwise fold. -/
theorem nodeFoldIntro (upd : Bool) (c : Comps) (pb : processedBlock) (dir : DiffDirection)
    (sc1 : SCTable) (fcc1 : FCComp) (sf1 : SFTable) (dsc1 : DSCTable) (pool1 : Currency)
    (h1 : foldDiffs (fun t d => scodApply upd t d dir) c.sc
        (orderFor dir pb.siacoinOutputDiffs) = .ok sc1)
    (h2 : foldDiffs (fun p d => fcdApply upd p d dir) c.fcc
        (orderFor dir pb.fileContractDiffs) = .ok fcc1)
    (h3 : foldDiffs (fun t d => sfodApply upd t d dir) c.sf
        (orderFor dir pb.siafundOutputDiffs) = .ok sf1)
    (h4 : foldDiffs (fun t d => dscodApply upd t d dir) c.dsc
        (orderFor dir pb.delayedSiacoinOutputDiffs) = .ok dsc1)
    (h5 : foldDiffs (fun x d => sfpdApply x d dir) c.pool
        (orderFor dir pb.siafundPoolDiffs) = .ok pool1) :
    nodeFold upd c pb dir = .ok ⟨sc1, fcc1, sf1, dsc1, pool1⟩ := by
  rw [nodeFold, h1, h2, h3, h4, h5]

/-- Reverting a consistent applied diff set restores the components up
to leaked empty expiration buckets. -/
theorem nodeFoldRevert (c c1 : Comps) (pb : processedBlock)
    (hsync : c.fcc.memFCE = c.fcc.dbFCE)
    (hm1 : listMatch scodMatch (fun t d => scodApply true t d .apply)
        c.sc pb.siacoinOutputDiffs = true)
    (hm2 : listMatch fcdMatch (fun p d => fcdApply true p d .apply)
        c.fcc pb.fileContractDiffs = true)
    (hm3 : listMatch sfodMatch (fun t d => sfodApply true t d .apply)
        c.sf pb.siafundOutputDiffs = true)
    (hm4 : listMatch dscodMatch (fun t d => dscodApply true t d .apply)
        c.dsc pb.delayedSiacoinOutputDiffs = true)
    (h : nodeFold true c pb .apply = .ok c1) :
    ∃ c2, nodeFold true c1 pb .revert = .ok c2 ∧ compsLeak c c2 := by
  obtain ⟨h1, h2, h3, h4, h5⟩ := nodeFoldOk true c pb .apply c1 h
  have hsync1 : c1.fcc.memFCE = c1.fcc.dbFCE :=
    foldFCSync pb.fileContractDiffs c.fcc c1.fcc h2 hsync
  have e1 : foldDiffs (fun t d => scodApply true t d .revert) c1.sc
      (orderFor .revert pb.siacoinOutputDiffs) = .ok c.sc :=
    foldRevertExact _ _ scodMatch
      (fun s s1 d hg hm => scodStepRevert s s1 d hg hm)
      pb.siacoinOutputDiffs c.sc c1.sc h1 hm1
  obtain ⟨u', e2, hrfc⟩ := foldRevertR (fun p d => fcdApply true p d .apply)
      (fun p d => fcdApply true p d .revert) fcdMatchS fcR
      (fun s s1 u d hg hm hr => by
        simp only [fcdMatchS, Bool.and_eq_true, decide_eq_true_eq] at hm
        exact fcdStepRevert s s1 u d hg hm.1 hm.2 hr)
      pb.fileContractDiffs c.fcc c1.fcc c1.fcc h2
      (listMatchFCSync pb.fileContractDiffs c.fcc hm2 hsync)
      ⟨rfl, hsync1, hsync1, fun _ => Or.inl rfl⟩
  have e3 : foldDiffs (fun t d => sfodApply true t d .revert) c1.sf
      (orderFor .revert pb.siafundOutputDiffs) = .ok c.sf :=
    foldRevertExact _ _ sfodMatch
      (fun s s1 d hg hm => sfodStepRevert s s1 d hg hm)
      pb.siafundOutputDiffs c.sf c1.sf h3 hm3
  have e4 : foldDiffs (fun t d => dscodApply true t d .revert) c1.dsc
      (orderFor .revert pb.delayedSiacoinOutputDiffs) = .ok c.dsc :=
    foldRevertExact _ _ dscodMatch
      (fun s s1 d hg hm => dscodStepRevert s s1 d hg hm)
      pb.delayedSiacoinOutputDiffs c.dsc c1.dsc h4 hm4
  have e5 : foldDiffs (fun x d => sfpdApply x d .revert) c1.pool
      (orderFor .revert pb.siafundPoolDiffs) = .ok c.pool :=
    foldRevertExact _ _ (fun _ _ => true)
      (fun s s1 d hg _ => sfpdStepRevert s s1 d hg)
      pb.siafundPoolDiffs c.pool c1.pool h5
      (listMatchOfFold _ pb.siafundPoolDiffs c.pool c1.pool h5)
  refine ⟨⟨c.sc, u', c.sf, c.dsc, c.pool⟩,
    nodeFoldIntro true c1 pb .revert c.sc u' c.sf c.dsc c.pool e1 e2 e3 e4 e5, ?_⟩
  exact ⟨rfl, hrfc.1.symm, hsync, hrfc.2.2.1, hrfc.2.2.2, rfl, rfl, rfl⟩

/-- Re-applying a diff set from a state that differs from the original
pre-state only by leaked empty expiration buckets succeeds and lands in
a state that differs from the original post-state in the same way. -/
theorem nodeFoldReapply (c c1 c2 : Comps) (pb : processedBlock)
    (h : nodeFold true c pb .apply = .ok c1)
    (hl : compsLeak c c2) :
    ∃ t1, nodeFold true c2 pb .apply = .ok t1 ∧ compsLeak c1 t1 := by
  obtain ⟨h1, h2, h3, h4, h5⟩ := nodeFoldOk true c pb .apply c1 h
  obtain ⟨hsc, hct, hs0, hs2, hleak, hsf, hdsc, hpool⟩ := hl
  obtain ⟨t', e2, hr2⟩ := foldApplyR (fun p d => fcdApply true p d .apply) fcR
      (fun s s' t d hg hr => fcdStepReapply s s' t d hg hr.2.1 hr)
      pb.fileContractDiffs c.fcc c1.fcc c2.fcc h2 ⟨hct.symm, hs0, hs2, hleak⟩
  refine ⟨⟨c1.sc, t', c1.sf, c1.dsc, c1.pool⟩, ?_, ?_⟩
  · refine nodeFoldIntro true c2 pb .apply c1.sc t' c1.sf c1.dsc c1.pool ?_ e2 ?_ ?_ ?_
    · rw [hsc]; exact h1
    · rw [hsf]; exact h3
    · rw [hdsc]; exact h4
    · rw [hpool]; exact h5
  · exact ⟨rfl, hr2.1.symm,
      foldFCSync pb.fileContractDiffs c.fcc c1.fcc h2 hs0,
      hr2.2.2.1, hr2.2.2.2, rfl, rfl, rfl⟩

end Siad

namespace Siad

/-- A bucket with no entries is the empty bucket. -/
theorem bucketEmptyOfCard (b : Bucket) (h : b.entries.card = 0) : b = ∅ := by
  have h0 : b.entries = 0 := Multiset.card_eq_zero.mp h
  apply Finmap.ext_lookup
  intro x
  rw [Finmap.lookup_empty, Finmap.lookup_eq_none, Finmap.mem_def, h0]
  simp [Multiset.keys]

/-- Decomposition of a successful apply-direction sanity check. -/
theorem sanityApplyOk (cs : ConsensusSet) (pb : processedBlock) (u : Unit)
    (h : commitDiffSetSanity cs pb .apply = .ok u) :
    pb.diffsGenerated = true ∧
    ∃ parent, cs.dbBlockMap.lookup pb.parent = some parent ∧
      some parent.block.id = cs.currentBlockID := by
  rw [commitDiffSetSanity] at h
  split at h
  · cases h
  next hgen =>
    rw [if_pos rfl] at h
    split at h
    next => cases h
    next parent hp =>
      split at h
      · cases h
      next hid =>
        exact ⟨by simpa using hgen, parent, hp, not_ne_iff.mp hid⟩

/-- The revert-direction sanity check passes when the block's diffs are
generated and its id tops the current path. -/
theorem sanityRevertIntro (cs : ConsensusSet) (pb : processedBlock)
    (hg : pb.diffsGenerated = true) (hid : some pb.block.id = cs.currentBlockID) :
    commitDiffSetSanity cs pb .revert = .ok () := by
  rw [commitDiffSetSanity, hg]
  simp [hid]

/-- The apply-direction sanity check passes when the block's diffs are
generated and its parent tops the current path. -/
theorem sanityApplyIntro (cs : ConsensusSet) (pb parent : processedBlock)
    (hg : pb.diffsGenerated = true)
    (hp : cs.dbBlockMap.lookup pb.parent = some parent)
    (hid : some parent.block.id = cs.currentBlockID) :
    commitDiffSetSanity cs pb .apply = .ok () := by
  rw [commitDiffSetSanity, hg, hp]
  simp [hid]

end Siad

namespace Siad

/-- Decomposition of a successful apply-direction upcoming-map creation. -/
theorem createUpApplyOk (cs cs1 : ConsensusSet) (pb : processedBlock)
    (hupd : cs.updateDatabase = true)
    (h : createUpcomingDelayedOutputMaps cs pb .apply = .ok cs1) :
    (pb.height + MaturityDelay) ∉ cs.dbDelayedSiacoinOutputs ∧
    cs1 = { cs with dbDelayedSiacoinOutputs :=
        cs.dbDelayedSiacoinOutputs.insert (pb.height + MaturityDelay) ∅ } := by
  rw [createUpcomingDelayedOutputMaps,
    if_neg (show ¬((!cs.updateDatabase) = true) by simp [hupd]), if_pos rfl] at h
  split at h
  · cases h
  next hmem =>
    cases h
    exact ⟨hmem, rfl⟩

/-- Decomposition of a successful apply-direction obsolete-map deletion. -/
theorem delObsApplyOk (cs2 cs3 : ConsensusSet) (pb : processedBlock)
    (hupd : cs2.updateDatabase = true)
    (h : deleteObsoleteDelayedOutputMaps cs2 pb .apply = .ok cs3) :
    ∃ E, cs3 = { cs2 with dbDelayedSiacoinOutputs := E } ∧
      ((MaturityDelay < pb.height ∧
          cs2.dbDelayedSiacoinOutputs.lookup pb.height = some ∅ ∧
          E = cs2.dbDelayedSiacoinOutputs.erase pb.height) ∨
       (¬ MaturityDelay < pb.height ∧ E = cs2.dbDelayedSiacoinOutputs)) := by
  rw [deleteObsoleteDelayedOutputMaps,
    if_neg (show ¬((!cs2.updateDatabase) = true) by simp [hupd]), if_pos rfl] at h
  split at h
  next hH =>
    split at h
    · cases h
    next hlen =>
      split at h
      · cases h
      next hmem =>
        cases h
        refine ⟨cs2.dbDelayedSiacoinOutputs.erase pb.height, rfl, Or.inl ⟨hH, ?_, rfl⟩⟩
        have hmem' : pb.height ∈ cs2.dbDelayedSiacoinOutputs := by
          by_contra hx
          exact hmem (by simpa using hx)
        obtain ⟨bucket, hb⟩ := Finmap.mem_iff.mp hmem'
        have hlen0 : cs2.lenDelayedSiacoinOutputsHeight pb.height = 0 :=
          not_ne_iff.mp hlen
        rw [ConsensusSet.lenDelayedSiacoinOutputsHeight, hb] at hlen0
        rw [hb, bucketEmptyOfCard bucket hlen0]
  next hH =>
    cases h
    exact ⟨cs2.dbDelayedSiacoinOutputs, rfl, Or.inr ⟨hH, rfl⟩⟩

/-- Decomposition of a successful apply-direction path update. -/
theorem pathApplyOk (env : DbEnv) (cs3 s1 : ConsensusSet) (pb : processedBlock)
    (hupd : cs3.updateDatabase = true)
    (h : updateCurrentPath env cs3 pb .apply = .ok s1) :
    env.pushPathErr pb.block.id = false ∧
    s1 = { cs3 with dbPath := cs3.dbPath ++ [pb.block.id],
                    blocksLoaded := cs3.blocksLoaded + 1 } := by
  rw [updateCurrentPath, if_pos rfl, if_pos hupd] at h
  split at h
  · cases h
  next hpush =>
    cases h
    exact ⟨by simpa using hpush, rfl⟩

end Siad

namespace Siad

/-- Upcoming-map creation on `Revert` restores a bucket table `B` when the
state's table is `B` with the height-`H` bucket possibly removed. -/
theorem createUpRevertChar (cs' : ConsensusSet) (pb : processedBlock) (B : DSCTable)
    (hupd' : cs'.updateDatabase = true)
    (hbr' : (MaturityDelay < pb.height ∧
             cs'.dbDelayedSiacoinOutputs = B.erase pb.height ∧
             B.lookup pb.height = some ∅) ∨
            (¬ MaturityDelay < pb.height ∧ cs'.dbDelayedSiacoinOutputs = B)) :
    createUpcomingDelayedOutputMaps cs' pb .revert =
      .ok { cs' with dbDelayedSiacoinOutputs := B } := by
  rw [createUpcomingDelayedOutputMaps,
    if_neg (show ¬((!cs'.updateDatabase) = true) by simp [hupd']),
    if_neg (show ¬(DiffDirection.revert = DiffDirection.apply) by decide)]
  rcases hbr' with ⟨hH, hdsc, hlook⟩ | ⟨hH, hdsc⟩
  · have hnm : ¬(pb.height ∈ cs'.dbDelayedSiacoinOutputs) := by
      rw [hdsc]
      simp [Finmap.mem_erase]
    rw [if_pos hH, if_neg hnm, hdsc, fmInsertErase B pb.height ∅ hlook]
  · rw [if_neg hH, ← hdsc]

/-- Obsolete-map deletion on `Revert` deletes the empty bucket at
`H + MaturityDelay`. -/
theorem delObsRevertChar (cs' : ConsensusSet) (pb : processedBlock)
    (hupd' : cs'.updateDatabase = true)
    (hlook : cs'.dbDelayedSiacoinOutputs.lookup (pb.height + MaturityDelay) = some ∅) :
    deleteObsoleteDelayedOutputMaps cs' pb .revert =
      .ok { cs' with dbDelayedSiacoinOutputs :=
              cs'.dbDelayedSiacoinOutputs.erase (pb.height + MaturityDelay) } := by
  rw [deleteObsoleteDelayedOutputMaps,
    if_neg (show ¬((!cs'.updateDatabase) = true) by simp [hupd']),
    if_neg (show ¬(DiffDirection.revert = DiffDirection.apply) by decide)]
  have hlen : cs'.lenDelayedSiacoinOutputsHeight (pb.height + MaturityDelay) = 0 := by
    rw [ConsensusSet.lenDelayedSiacoinOutputsHeight, hlook]
    rfl
  rw [if_neg (not_ne_iff.mpr hlen),
    if_neg (show ¬((!((pb.height + MaturityDelay) ∈ cs'.dbDelayedSiacoinOutputs : Bool)) = true) by
      simp [Finmap.mem_of_lookup_eq_some hlook])]

/-- Path update on `Revert` pops the last id of a nonempty path. -/
theorem pathRevertChar (env : DbEnv) (cs' : ConsensusSet) (pb : processedBlock)
    (hupd' : cs'.updateDatabase = true)
    (hne : cs'.dbPath.isEmpty = false) :
    updateCurrentPath env cs' pb .revert =
      .ok { cs' with dbPath := cs'.dbPath.dropLast,
                     blocksLoaded := cs'.blocksLoaded - 1 } := by
  rw [updateCurrentPath,
    if_neg (show ¬(DiffDirection.revert = DiffDirection.apply) by decide),
    if_pos hupd', if_neg (show ¬(cs'.dbPath.isEmpty = true) by simp [hne])]

/-- Upcoming-map creation on `Apply` inserts the empty bucket at
`H + MaturityDelay` when absent. -/
theorem createUpApplyChar (cs' : ConsensusSet) (pb : processedBlock)
    (hupd' : cs'.updateDatabase = true)
    (hmem' : (pb.height + MaturityDelay) ∉ cs'.dbDelayedSiacoinOutputs) :
    createUpcomingDelayedOutputMaps cs' pb .apply =
      .ok { cs' with dbDelayedSiacoinOutputs :=
              cs'.dbDelayedSiacoinOutputs.insert (pb.height + MaturityDelay) ∅ } := by
  rw [createUpcomingDelayedOutputMaps,
    if_neg (show ¬((!cs'.updateDatabase) = true) by simp [hupd']),
    if_pos rfl, if_neg hmem']

/-- Obsolete-map deletion on `Apply`: deletes the bucket at `H` exactly when
`H` exceeds the maturity delay, in which case the bucket must be empty. -/
theorem delObsApplyChar (cs' : ConsensusSet) (pb : processedBlock) (B E : DSCTable)
    (hupd' : cs'.updateDatabase = true)
    (hdsc : cs'.dbDelayedSiacoinOutputs = B)
    (hbr' : (MaturityDelay < pb.height ∧ B.lookup pb.height = some ∅ ∧
             E = B.erase pb.height) ∨
            (¬ MaturityDelay < pb.height ∧ E = B)) :
    deleteObsoleteDelayedOutputMaps cs' pb .apply =
      .ok { cs' with dbDelayedSiacoinOutputs := E } := by
  rw [deleteObsoleteDelayedOutputMaps,
    if_neg (show ¬((!cs'.updateDatabase) = true) by simp [hupd']),
    if_pos rfl]
  rcases hbr' with ⟨hH, hlook, hE⟩ | ⟨hH, hE⟩
  · have hlen : cs'.lenDelayedSiacoinOutputsHeight pb.height = 0 := by
      rw [ConsensusSet.lenDelayedSiacoinOutputsHeight, hdsc, hlook]
      rfl
    rw [if_pos hH, if_neg (not_ne_iff.mpr hlen),
      if_neg (show ¬((!(pb.height ∈ cs'.dbDelayedSiacoinOutputs : Bool)) = true) by
        simp [hdsc, Finmap.mem_of_lookup_eq_some hlook]),
      hdsc, hE]
  · rw [if_neg hH, hE, ← hdsc]

/-- Path update on `Apply` appends the block id when the push succeeds. -/
theorem pathApplyChar (env : DbEnv) (cs' : ConsensusSet) (pb : processedBlock)
    (hupd' : cs'.updateDatabase = true)
    (hpush' : env.pushPathErr pb.block.id = false) :
    updateCurrentPath env cs' pb .apply =
      .ok { cs' with dbPath := cs'.dbPath ++ [pb.block.id],
                     blocksLoaded := cs'.blocksLoaded + 1 } := by
  rw [updateCurrentPath, if_pos rfl, if_pos hupd',
    if_neg (show ¬(env.pushPathErr pb.block.id = true) by simp [hpush'])]

/-- A successful componentwise fold yields a successful `commitNodeDiffs`. -/
theorem commitNodeDiffsOkOf (cs' : ConsensusSet) (pb : processedBlock)
    (c c' : Comps) (dir : DiffDirection)
    (hupd' : cs'.updateDatabase = true) (hcomps : cs'.comps = c)
    (hfold : nodeFold true c pb dir = .ok c') :
    commitNodeDiffs cs' pb dir = .ok (cs'.setComps c') := by
  rw [commitNodeDiffsChar, hupd', hcomps, hfold]
  rfl

/-- Compose the five stages of `commitDiffSet`. -/
theorem commitDiffSetIntro (env : DbEnv) (cs0 : ConsensusSet) (pb : processedBlock)
    (dir : DiffDirection) (csA csB csC csD : ConsensusSet)
    (h0 : commitDiffSetSanity cs0 pb dir = .ok ())
    (h1 : createUpcomingDelayedOutputMaps cs0 pb dir = .ok csA)
    (h2 : commitNodeDiffs csA pb dir = .ok csB)
    (h3 : deleteObsoleteDelayedOutputMaps csB pb dir = .ok csC)
    (h4 : updateCurrentPath env csC pb dir = .ok csD) :
    commitDiffSet env cs0 pb dir = .ok csD := by
  rw [commitDiffSet, h0]
  dsimp only
  rw [h1]
  dsimp only
  rw [h2]
  dsimp only
  rw [h3]
  dsimp only
  exact h4

end Siad

namespace Siad

/-- The constructive core of the apply-revert-apply round trip: from the
decomposed facts of a successful apply run, the revert run succeeds and
restores the spec's five tables, buckets, pool and path, and the re-apply
run succeeds and restores the post-block values of the same components. -/
theorem roundTripCore (env : DbEnv) (cs : ConsensusSet) (pb parent : processedBlock)
    (c1 : Comps) (E : DSCTable)
    (hupd : cs.updateDatabase = true)
    (hsync : cs.fileContractExpirations = cs.dbFCExpirations)
    (hgen : pb.diffsGenerated = true)
    (hpar : cs.dbBlockMap.lookup pb.parent = some parent)
    (hpid : some parent.block.id = cs.currentBlockID)
    (hmem : (pb.height + MaturityDelay) ∉ cs.dbDelayedSiacoinOutputs)
    (hm1 : listMatch scodMatch (fun t d => scodApply true t d .apply)
        cs.dbSiacoinOutputs pb.siacoinOutputDiffs = true)
    (hm2 : listMatch fcdMatch (fun p d => fcdApply true p d .apply)
        ⟨cs.dbFileContracts, cs.fileContractExpirations, cs.dbFCExpirations⟩
        pb.fileContractDiffs = true)
    (hm3 : listMatch sfodMatch (fun t d => sfodApply true t d .apply)
        cs.dbSiafundOutputs pb.siafundOutputDiffs = true)
    (hm4 : listMatch dscodMatch (fun t d => dscodApply true t d .apply)
        (cs.dbDelayedSiacoinOutputs.insert (pb.height + MaturityDelay) ∅)
        pb.delayedSiacoinOutputDiffs = true)
    (hnf : nodeFold true
        ⟨cs.dbSiacoinOutputs,
         ⟨cs.dbFileContracts, cs.fileContractExpirations, cs.dbFCExpirations⟩,
         cs.dbSiafundOutputs,
         cs.dbDelayedSiacoinOutputs.insert (pb.height + MaturityDelay) ∅,
         cs.siafundPool⟩ pb .apply = .ok c1)
    (hbr : (MaturityDelay < pb.height ∧ c1.dsc.lookup pb.height = some ∅ ∧
            E = c1.dsc.erase pb.height) ∨
           (¬ MaturityDelay < pb.height ∧ E = c1.dsc))
    (hpush : env.pushPathErr pb.block.id = false) :
    ∃ s2 s3,
      commitDiffSet env
        { updateDatabase := cs.updateDatabase,
          dbSiacoinOutputs := c1.sc,
          dbFileContracts := c1.fcc.contracts,
          dbSiafundOutputs := c1.sf,
          dbDelayedSiacoinOutputs := E,
          dbFCExpirations := c1.fcc.dbFCE,
          dbPath := cs.dbPath ++ [pb.block.id],
          dbBlockMap := cs.dbBlockMap,
          fileContractExpirations := c1.fcc.memFCE,
          siafundPool := c1.pool,
          blocksLoaded := cs.blocksLoaded + 1,
          dosBlocks := cs.dosBlocks } pb .revert = .ok s2 ∧
      s2.core = cs.core ∧
      commitDiffSet env s2 pb .apply = .ok s3 ∧
      s3.core = CoreState.mk c1.sc c1.fcc.contracts c1.sf E c1.pool
        (cs.dbPath ++ [pb.block.id]) := by
  obtain ⟨c2, hrev, hleak⟩ := nodeFoldRevert
    ⟨cs.dbSiacoinOutputs,
     ⟨cs.dbFileContracts, cs.fileContractExpirations, cs.dbFCExpirations⟩,
     cs.dbSiafundOutputs,
     cs.dbDelayedSiacoinOutputs.insert (pb.height + MaturityDelay) ∅,
     cs.siafundPool⟩ c1 pb hsync hm1 hm2 hm3 hm4 hnf
  obtain ⟨hLsc, hLct, hLm0, hLm2, hLleak, hLsf, hLdsc, hLpool⟩ := hleak
  set S1 : ConsensusSet :=
    { updateDatabase := cs.updateDatabase,
      dbSiacoinOutputs := c1.sc,
      dbFileContracts := c1.fcc.contracts,
      dbSiafundOutputs := c1.sf,
      dbDelayedSiacoinOutputs := E,
      dbFCExpirations := c1.fcc.dbFCE,
      dbPath := cs.dbPath ++ [pb.block.id],
      dbBlockMap := cs.dbBlockMap,
      fileContractExpirations := c1.fcc.memFCE,
      siafundPool := c1.pool,
      blocksLoaded := cs.blocksLoaded + 1,
      dosBlocks := cs.dosBlocks } with hS1
  have hupd1 : S1.updateDatabase = true := hupd
  have r0 : commitDiffSetSanity S1 pb .revert = .ok () := by
    refine sanityRevertIntro S1 pb hgen ?_
    exact (List.getLast?_concat _).symm
  have hbr1 : (MaturityDelay < pb.height ∧
      S1.dbDelayedSiacoinOutputs = c1.dsc.erase pb.height ∧
      c1.dsc.lookup pb.height = some ∅) ∨
      (¬ MaturityDelay < pb.height ∧ S1.dbDelayedSiacoinOutputs = c1.dsc) := by
    rcases hbr with ⟨hH, hlook, hE⟩ | ⟨hH, hE⟩
    · exact Or.inl ⟨hH, hE, hlook⟩
    · exact Or.inr ⟨hH, hE⟩
  have r1 : createUpcomingDelayedOutputMaps S1 pb .revert =
      .ok { S1 with dbDelayedSiacoinOutputs := c1.dsc } :=
    createUpRevertChar S1 pb c1.dsc hupd1 hbr1
  have hcompsA : ({ S1 with dbDelayedSiacoinOutputs := c1.dsc } : ConsensusSet).comps = c1 := rfl
  have r2 : commitNodeDiffs { S1 with dbDelayedSiacoinOutputs := c1.dsc } pb .revert =
      .ok (ConsensusSet.setComps { S1 with dbDelayedSiacoinOutputs := c1.dsc } c2) :=
    commitNodeDiffsOkOf _ pb c1 c2 .revert hupd hcompsA hrev
  set S2B : ConsensusSet :=
    ConsensusSet.setComps { S1 with dbDelayedSiacoinOutputs := c1.dsc } c2 with hS2B
  have hdscB : S2B.dbDelayedSiacoinOutputs =
      cs.dbDelayedSiacoinOutputs.insert (pb.height + MaturityDelay) ∅ := hLdsc
  have hlookB : S2B.dbDelayedSiacoinOutputs.lookup (pb.height + MaturityDelay) = some ∅ := by
    rw [hdscB]
    exact fmLookupInsertSelf _ _ _
  have r3 : deleteObsoleteDelayedOutputMaps S2B pb .revert =
      .ok { S2B with dbDelayedSiacoinOutputs :=
              S2B.dbDelayedSiacoinOutputs.erase (pb.height + MaturityDelay) } :=
    delObsRevertChar S2B pb hupd hlookB
  have herase : S2B.dbDelayedSiacoinOutputs.erase (pb.height + MaturityDelay) =
      cs.dbDelayedSiacoinOutputs := by
    rw [hdscB]
    exact fmEraseInsert _ _ _ hmem
  rw [herase] at r3
  have hne2C : (({ S2B with dbDelayedSiacoinOutputs := cs.dbDelayedSiacoinOutputs } :
      ConsensusSet)).dbPath.isEmpty = false := by
    show (cs.dbPath ++ [pb.block.id]).isEmpty = false
    simp
  have r4 : updateCurrentPath env
      { S2B with dbDelayedSiacoinOutputs := cs.dbDelayedSiacoinOutputs } pb .revert =
      .ok { { S2B with dbDelayedSiacoinOutputs := cs.dbDelayedSiacoinOutputs } with
              dbPath := ({ S2B with dbDelayedSiacoinOutputs :=
                cs.dbDelayedSiacoinOutputs } : ConsensusSet).dbPath.dropLast,
              blocksLoaded := ({ S2B with dbDelayedSiacoinOutputs :=
                cs.dbDelayedSiacoinOutputs } : ConsensusSet).blocksLoaded - 1 } :=
    pathRevertChar env _ pb hupd hne2C
  set S2 : ConsensusSet :=
    { { S2B with dbDelayedSiacoinOutputs := cs.dbDelayedSiacoinOutputs } with
        dbPath := ({ S2B with dbDelayedSiacoinOutputs :=
          cs.dbDelayedSiacoinOutputs } : ConsensusSet).dbPath.dropLast,
        blocksLoaded := ({ S2B with dbDelayedSiacoinOutputs :=
          cs.dbDelayedSiacoinOutputs } : ConsensusSet).blocksLoaded - 1 } with hS2
  have hrevert : commitDiffSet env S1 pb .revert = .ok S2 :=
    commitDiffSetIntro env S1 pb .revert _ _ _ _ r0 r1 r2 r3 r4
  have hcore2 : S2.core = cs.core := by
    show CoreState.mk c2.sc c2.fcc.contracts c2.sf cs.dbDelayedSiacoinOutputs c2.pool
        ((cs.dbPath ++ [pb.block.id]).dropLast) =
      CoreState.mk cs.dbSiacoinOutputs cs.dbFileContracts cs.dbSiafundOutputs
        cs.dbDelayedSiacoinOutputs cs.siafundPool cs.dbPath
    rw [hLsc, hLct, hLsf, hLpool, List.dropLast_concat]
  have hid2 : some parent.block.id = S2.currentBlockID := by
    show some parent.block.id = ((cs.dbPath ++ [pb.block.id]).dropLast).getLast?
    rw [List.dropLast_concat]
    exact hpid
  have a0 : commitDiffSetSanity S2 pb .apply = .ok () :=
    sanityApplyIntro S2 pb parent hgen hpar hid2
  have hmem2 : (pb.height + MaturityDelay) ∉ S2.dbDelayedSiacoinOutputs := hmem
  have a1 : createUpcomingDelayedOutputMaps S2 pb .apply =
      .ok { S2 with dbDelayedSiacoinOutputs :=
              S2.dbDelayedSiacoinOutputs.insert (pb.height + MaturityDelay) ∅ } :=
    createUpApplyChar S2 pb hupd hmem2
  have hl2 : compsLeak
      ⟨cs.dbSiacoinOutputs,
       ⟨cs.dbFileContracts, cs.fileContractExpirations, cs.dbFCExpirations⟩,
       cs.dbSiafundOutputs,
       cs.dbDelayedSiacoinOutputs.insert (pb.height + MaturityDelay) ∅,
       cs.siafundPool⟩
      (({ S2 with dbDelayedSiacoinOutputs :=
          S2.dbDelayedSiacoinOutputs.insert (pb.height + MaturityDelay) ∅ } :
        ConsensusSet)).comps :=
    ⟨hLsc, hLct, hLm0, hLm2, hLleak, hLsf, rfl, hLpool⟩
  obtain ⟨t1, happ2, hleak2⟩ := nodeFoldReapply _ c1 _ pb hnf hl2
  obtain ⟨hKsc, hKct, hKm0, hKm2, hKleak, hKsf, hKdsc, hKpool⟩ := hleak2
  have a2 : commitNodeDiffs
      { S2 with dbDelayedSiacoinOutputs :=
          S2.dbDelayedSiacoinOutputs.insert (pb.height + MaturityDelay) ∅ } pb .apply =
      .ok (ConsensusSet.setComps
        { S2 with dbDelayedSiacoinOutputs :=
            S2.dbDelayedSiacoinOutputs.insert (pb.height + MaturityDelay) ∅ } t1) :=
    commitNodeDiffsOkOf _ pb _ t1 .apply hupd rfl happ2
  set S2B2 : ConsensusSet :=
    ConsensusSet.setComps
      { S2 with dbDelayedSiacoinOutputs :=
          S2.dbDelayedSiacoinOutputs.insert (pb.height + MaturityDelay) ∅ } t1 with hSB2
  have a3 : deleteObsoleteDelayedOutputMaps S2B2 pb .apply =
      .ok { S2B2 with dbDelayedSiacoinOutputs := E } :=
    delObsApplyChar S2B2 pb c1.dsc E hupd hKdsc hbr
  have a4 : updateCurrentPath env
      { S2B2 with dbDelayedSiacoinOutputs := E } pb .apply =
      .ok { { S2B2 with dbDelayedSiacoinOutputs := E } with
              dbPath := ({ S2B2 with dbDelayedSiacoinOutputs := E } :
                ConsensusSet).dbPath ++ [pb.block.id],
              blocksLoaded := ({ S2B2 with dbDelayedSiacoinOutputs := E } :
                ConsensusSet).blocksLoaded + 1 } :=
    pathApplyChar env _ pb hupd hpush
  set S3 : ConsensusSet :=
    { { S2B2 with dbDelayedSiacoinOutputs := E } with
        dbPath := ({ S2B2 with dbDelayedSiacoinOutputs := E } :
          ConsensusSet).dbPath ++ [pb.block.id],
        blocksLoaded := ({ S2B2 with dbDelayedSiacoinOutputs := E } :
          ConsensusSet).blocksLoaded + 1 } with hS3
  have happly : commitDiffSet env S2 pb .apply = .ok S3 :=
    commitDiffSetIntro env S2 pb .apply _ _ _ _ a0 a1 a2 a3 a4
  have hcore3 : S3.core = CoreState.mk c1.sc c1.fcc.contracts c1.sf E c1.pool
      (cs.dbPath ++ [pb.block.id]) := by
    show CoreState.mk t1.sc t1.fcc.contracts t1.sf E t1.pool
        ((cs.dbPath ++ [pb.block.id]).dropLast ++ [pb.block.id]) = _
    rw [hKsc, hKct, hKsf, hKpool, List.dropLast_concat]
  exact ⟨S2, S3, hrevert, hcore2, happly, hcore3⟩

end Siad

namespace Siad

/-- C1: for a block with generated diffs, committing its diff set in the
`Apply` direction from a consistent pre-block state and then committing it
in the `Revert` direction restores the pre-block values of all five
tables, the delayed-output buckets, the pool and the current path; and
re-applying after the revert reproduces the post-block values of the same
components bit-identically. -/
theorem apply_revert_apply_round_trip (env : DbEnv) (cs s1 : ConsensusSet)
    (pb : processedBlock)
    (hupd : cs.updateDatabase = true)
    (hsync : cs.fileContractExpirations = cs.dbFCExpirations)
    (hmatch : diffSetMatch cs pb = true)
    (h : commitDiffSet env cs pb .apply = .ok s1) :
    ∃ s2 s3, commitDiffSet env s1 pb .revert = .ok s2 ∧ s2.core = cs.core ∧
      commitDiffSet env s2 pb .apply = .ok s3 ∧ s3.core = s1.core := by
  simp only [diffSetMatch, Bool.and_eq_true] at hmatch
  obtain ⟨⟨⟨hm1, hm2⟩, hm3⟩, hm4⟩ := hmatch
  rw [commitDiffSet] at h
  cases hs0 : commitDiffSetSanity cs pb .apply with
  | error e => rw [hs0] at h; cases h
  | ok u =>
  rw [hs0] at h
  obtain ⟨hgen, parent, hpar, hpid⟩ := sanityApplyOk cs pb u hs0
  cases hc : createUpcomingDelayedOutputMaps cs pb .apply with
  | error e => rw [hc] at h; cases h
  | ok cs1 =>
  rw [hc] at h
  obtain ⟨hmem, hcs1⟩ := createUpApplyOk cs cs1 pb hupd hc
  subst hcs1
  dsimp only at h
  cases hn : commitNodeDiffs
      { cs with dbDelayedSiacoinOutputs :=
          cs.dbDelayedSiacoinOutputs.insert (pb.height + MaturityDelay) ∅ } pb .apply with
  | error e => rw [hn] at h; cases h
  | ok cs2 =>
  rw [hn] at h
  dsimp only at h
  rw [commitNodeDiffsChar] at hn
  obtain ⟨c1, hnf, hcs2⟩ := exceptMapOk _ _ _ hn
  rw [show ({ cs with dbDelayedSiacoinOutputs :=
      cs.dbDelayedSiacoinOutputs.insert (pb.height + MaturityDelay) ∅ } :
      ConsensusSet).updateDatabase = true from hupd] at hnf
  subst hcs2
  cases hd : deleteObsoleteDelayedOutputMaps
      (ConsensusSet.setComps
        { cs with dbDelayedSiacoinOutputs :=
            cs.dbDelayedSiacoinOutputs.insert (pb.height + MaturityDelay) ∅ } c1)
      pb .apply with
  | error e => rw [hd] at h; cases h
  | ok cs3 =>
  rw [hd] at h
  dsimp only at h
  obtain ⟨E, hcs3, hbr⟩ := delObsApplyOk
    (ConsensusSet.setComps
      { cs with dbDelayedSiacoinOutputs :=
          cs.dbDelayedSiacoinOutputs.insert (pb.height + MaturityDelay) ∅ } c1)
    cs3 pb hupd hd
  subst hcs3
  obtain ⟨hpush, hs1⟩ := pathApplyOk env
    { ConsensusSet.setComps
        { cs with dbDelayedSiacoinOutputs :=
            cs.dbDelayedSiacoinOutputs.insert (pb.height + MaturityDelay) ∅ } c1
      with dbDelayedSiacoinOutputs := E }
    s1 pb hupd h
  subst hs1
  exact roundTripCore env cs pb parent c1 E hupd hsync hgen hpar hpid hmem
    hm1 hm2 hm3 hm4 hnf hbr hpush

end Siad

namespace Siad

theorem apply_revert_apply_round_trip_witness :
    ∃ s2 s3, commitDiffSet DbEnv.ok wS1 wPB .revert = .ok s2 ∧ s2.core = wCS.core ∧
      commitDiffSet DbEnv.ok s2 wPB .apply = .ok s3 ∧ s3.core = wS1.core :=
  apply_revert_apply_round_trip DbEnv.ok wCS wS1 wPB (by decide) (by decide)
    (by decide) (by decide)

end Siad

namespace Siad

/-- Decomposition of one successful apply-direction pool-diff commit. -/
theorem sfpdApplyOk (x x1 : Currency) (d : SiafundPoolDiff)
    (h : sfpdApply x d .apply = .ok x1) :
    d.previous = x ∧ x1 = d.adjusted ∧ x ≤ x1 := by
  rw [sfpdApply] at h
  split at h
  · cases h
  split at h
  · cases h
  rw [if_pos rfl] at h
  split at h
  · cases h
  next hlt hdir hpool =>
  rw [Decidable.not_not] at hpool
  cases h
  exact ⟨hpool.symm, rfl, hpool ▸ le_of_not_lt hlt⟩

/-- The pool facts of one apply-direction pool-diff fold: monotone pool,
chained records, the first record anchored at the initial pool, the last
record anchored at the final pool. -/
theorem sfpdFoldFacts :
    ∀ (l : List SiafundPoolDiff) (x x' : Currency),
      foldDiffs (fun p d => sfpdApply p d .apply) x l = .ok x' →
      x ≤ x' ∧
      List.Chain' (fun a b => b.previous = a.adjusted) l ∧
      (∀ d, l.head? = some d → d.previous = x) ∧
      (l = [] → x' = x) ∧
      (∀ d, l.getLast? = some d → d.adjusted = x') := by
  intro l
  induction l with
  | nil =>
    intro x x' h
    cases h
    exact ⟨le_rfl, List.chain'_nil, (by intro d hd; cases hd), fun _ => rfl,
      (by intro d hd; cases hd)⟩
  | cons d t ih =>
    intro x x' h
    cases hg : sfpdApply x d .apply with
    | error e =>
      rw [foldDiffs_cons, hg] at h
      cases h
    | ok x1 =>
      rw [foldDiffs_cons, hg] at h
      obtain ⟨hprev, hadj, hle⟩ := sfpdApplyOk x x1 d hg
      obtain ⟨ihle, ihchain, ihhead, ihnil, ihlast⟩ := ih x1 x' h
      refine ⟨le_trans hle ihle, ?_, ?_, ?_, ?_⟩
      · rw [List.chain'_cons']
        exact ⟨fun b hb => by rw [ihhead b hb, hadj], ihchain⟩
      · intro e he
        cases he
        exact hprev
      · intro he
        cases he
      · intro e he
        cases t with
        | nil =>
          cases he
          show d.adjusted = x'
          rw [← hadj]
          exact (ihnil rfl).symm
        | cons b tb =>
          rw [List.getLast?_cons_cons] at he
          exact ihlast e he
end Siad

namespace Siad

/-- Upcoming-map creation never touches the pool. -/
theorem createUpPool (cs cs1 : ConsensusSet) (pb : processedBlock) (dir : DiffDirection)
    (h : createUpcomingDelayedOutputMaps cs pb dir = .ok cs1) :
    cs1.siafundPool = cs.siafundPool := by
  rw [createUpcomingDelayedOutputMaps] at h
  split at h
  · cases h; rfl
  split at h
  · split at h
    · cases h
    · cases h; rfl
  · split at h
    · split at h
      · cases h
      · cases h; rfl
    · cases h; rfl

/-- Obsolete-map deletion never touches the pool. -/
theorem delObsPool (cs cs1 : ConsensusSet) (pb : processedBlock) (dir : DiffDirection)
    (h : deleteObsoleteDelayedOutputMaps cs pb dir = .ok cs1) :
    cs1.siafundPool = cs.siafundPool := by
  rw [deleteObsoleteDelayedOutputMaps] at h
  split at h
  · cases h; rfl
  split at h
  · split at h
    · split at h
      · cases h
      · split at h
        · cases h
        · cases h; rfl
    · cases h; rfl
  · split at h
    · cases h
    · split at h
      · cases h
      · cases h; rfl

/-- The path update never touches the pool. -/
theorem pathPool (env : DbEnv) (cs cs1 : ConsensusSet) (pb : processedBlock)
    (dir : DiffDirection) (h : updateCurrentPath env cs pb dir = .ok cs1) :
    cs1.siafundPool = cs.siafundPool := by
  rw [updateCurrentPath] at h
  split at h
  · split at h
    · split at h
      · cases h
      · cases h; rfl
    · cases h; rfl
  · split at h
    · split at h
      · cases h
      · cases h; rfl
    · cases h; rfl

/-- A successful apply-direction `commitDiffSet` runs exactly the pool-diff
fold on the pool scalar (whatever the database flag). -/
theorem commitDiffSetPool (env : DbEnv) (cs s1 : ConsensusSet) (pb : processedBlock)
    (h : commitDiffSet env cs pb .apply = .ok s1) :
    foldDiffs (fun p d => sfpdApply p d .apply) cs.siafundPool pb.siafundPoolDiffs =
      .ok s1.siafundPool := by
  rw [commitDiffSet] at h
  cases hs0 : commitDiffSetSanity cs pb .apply with
  | error e => rw [hs0] at h; cases h
  | ok u =>
  rw [hs0] at h
  dsimp only at h
  cases hc : createUpcomingDelayedOutputMaps cs pb .apply with
  | error e => rw [hc] at h; cases h
  | ok cs1 =>
  rw [hc] at h
  dsimp only at h
  cases hn : commitNodeDiffs cs1 pb .apply with
  | error e => rw [hn] at h; cases h
  | ok cs2 =>
  rw [hn] at h
  dsimp only at h
  cases hd : deleteObsoleteDelayedOutputMaps cs2 pb .apply with
  | error e => rw [hd] at h; cases h
  | ok cs3 =>
  rw [hd] at h
  dsimp only at h
  rw [commitNodeDiffsChar] at hn
  obtain ⟨c1, hnf, hcs2⟩ := exceptMapOk _ _ _ hn
  obtain ⟨hf1, hf2, hf3, hf4, hf5⟩ := nodeFoldOk cs1.updateDatabase cs1.comps pb .apply c1 hnf
  have hpool2 : cs2.siafundPool = c1.pool := by rw [hcs2]; rfl
  have hpool1 : cs1.siafundPool = cs.siafundPool := createUpPool cs cs1 pb .apply hc
  have hpool3 : cs3.siafundPool = cs2.siafundPool := delObsPool cs2 cs3 pb .apply hd
  have hpools1 : s1.siafundPool = cs3.siafundPool := pathPool env cs3 s1 pb .apply h
  rw [hpools1, hpool3, hpool2, ← hpool1]
  exact hf5

end Siad

namespace Siad

theorem commitBlocks_cons (env : DbEnv) (cs : ConsensusSet) (pb : processedBlock)
    (t : List processedBlock) :
    commitBlocks env cs (pb :: t) =
      match commitDiffSet env cs pb .apply with
      | .error e => .error e
      | .ok cs1 => commitBlocks env cs1 t := rfl

/-- C6: along any successfully committed block sequence the siafund pool
never decreases, and the pool-diff records chain by equality: the first
record's `previous` is the initial pool, each record's `previous` equals
the preceding record's `adjusted`, and the last record's `adjusted` is the
final pool. -/
theorem siafund_pool_monotone_chaining (env : DbEnv) :
    ∀ (blocks : List processedBlock) (cs cs' : ConsensusSet),
      commitBlocks env cs blocks = .ok cs' →
      cs.siafundPool ≤ cs'.siafundPool ∧
      List.Chain' (fun a b => b.previous = a.adjusted)
        ((blocks.map processedBlock.siafundPoolDiffs).flatten) ∧
      (∀ d, ((blocks.map processedBlock.siafundPoolDiffs).flatten).head? = some d →
        d.previous = cs.siafundPool) ∧
      ((blocks.map processedBlock.siafundPoolDiffs).flatten = [] →
        cs'.siafundPool = cs.siafundPool) ∧
      (∀ d, ((blocks.map processedBlock.siafundPoolDiffs).flatten).getLast? = some d →
        d.adjusted = cs'.siafundPool) := by
  intro blocks
  induction blocks with
  | nil =>
    intro cs cs' h
    cases h
    exact ⟨le_rfl, List.chain'_nil, (by intro d hd; cases hd), fun _ => rfl,
      (by intro d hd; cases hd)⟩
  | cons pb t ih =>
    intro cs cs' h
    cases hg : commitDiffSet env cs pb .apply with
    | error e =>
      rw [commitBlocks_cons, hg] at h
      cases h
    | ok cs1 =>
      rw [commitBlocks_cons, hg] at h
      obtain ⟨ihle, ihchain, ihhead, ihnil, ihlast⟩ := ih cs1 cs' h
      obtain ⟨ble, bchain, bhead, bnil, blast⟩ :=
        sfpdFoldFacts pb.siafundPoolDiffs cs.siafundPool cs1.siafundPool
          (commitDiffSetPool env cs cs1 pb hg)
      refine ⟨le_trans ble ihle, ?_, ?_, ?_, ?_⟩
      · rw [List.map_cons, List.flatten_cons, List.chain'_append]
        refine ⟨bchain, ihchain, ?_⟩
        intro x hx y hy
        exact (ihhead y (Option.mem_def.mp hy)).trans (blast x (Option.mem_def.mp hx)).symm
      · intro d hd
        rw [List.map_cons, List.flatten_cons] at hd
        cases hpb : pb.siafundPoolDiffs with
        | nil =>
          rw [hpb, List.nil_append] at hd
          rw [ihhead d hd, bnil hpb]
        | cons a l =>
          rw [List.head?_append_of_ne_nil _ (by rw [hpb]; exact List.cons_ne_nil a l)] at hd
          exact bhead d hd
      · intro hj
        rw [List.map_cons, List.flatten_cons] at hj
        obtain ⟨h1, h2⟩ := List.append_eq_nil.mp hj
        rw [ihnil h2, bnil h1]
      · intro d hd
        rw [List.map_cons, List.flatten_cons] at hd
        cases hrest : (t.map processedBlock.siafundPoolDiffs).flatten with
        | nil =>
          rw [hrest, List.append_nil] at hd
          rw [blast d hd]
          exact (ihnil hrest).symm
        | cons a l =>
          rw [List.getLast?_append_of_ne_nil _
            (by rw [hrest]; exact List.cons_ne_nil a l)] at hd
          exact ihlast d hd

/-- The C6 theorem applied to the one-block chain `[wPB]` from `wCS`. -/
theorem siafund_pool_monotone_chaining_witness :
    wCS.siafundPool ≤ wS1.siafundPool ∧
    List.Chain' (fun a b => b.previous = a.adjusted)
      (([wPB].map processedBlock.siafundPoolDiffs).flatten) ∧
    (∀ d, (([wPB].map processedBlock.siafundPoolDiffs).flatten).head? = some d →
      d.previous = wCS.siafundPool) ∧
    (([wPB].map processedBlock.siafundPoolDiffs).flatten = [] →
      wS1.siafundPool = wCS.siafundPool) ∧
    (∀ d, (([wPB].map processedBlock.siafundPoolDiffs).flatten).getLast? = some d →
      d.adjusted = wS1.siafundPool) :=
  siafund_pool_monotone_chaining DbEnv.ok [wPB] wCS wS1 (by decide)

end Siad

namespace Siad

/-- Decomposition of a successful revert-direction upcoming-map creation. -/
theorem createUpRevertOk (cs cs1 : ConsensusSet) (pb : processedBlock)
    (hupd : cs.updateDatabase = true)
    (h : createUpcomingDelayedOutputMaps cs pb .revert = .ok cs1) :
    (MaturityDelay < pb.height →
      pb.height ∉ cs.dbDelayedSiacoinOutputs ∧
      cs1 = { cs with dbDelayedSiacoinOutputs :=
                cs.dbDelayedSiacoinOutputs.insert pb.height ∅ }) ∧
    (¬ MaturityDelay < pb.height → cs1 = cs) := by
  rw [createUpcomingDelayedOutputMaps,
    if_neg (show ¬((!cs.updateDatabase) = true) by simp [hupd]),
    if_neg (show ¬(DiffDirection.revert = DiffDirection.apply) by decide)] at h
  split at h
  next hH =>
    split at h
    · cases h
    next hmem =>
      cases h
      exact ⟨fun _ => ⟨hmem, rfl⟩, fun hx => absurd hH hx⟩
  next hH =>
    cases h
    exact ⟨fun hx => absurd hx hH, fun _ => rfl⟩

/-- Decomposition of a successful revert-direction obsolete-map deletion. -/
theorem delObsRevertOk (cs2 cs3 : ConsensusSet) (pb : processedBlock)
    (hupd : cs2.updateDatabase = true)
    (h : deleteObsoleteDelayedOutputMaps cs2 pb .revert = .ok cs3) :
    cs2.lenDelayedSiacoinOutputsHeight (pb.height + MaturityDelay) = 0 ∧
    (pb.height + MaturityDelay) ∈ cs2.dbDelayedSiacoinOutputs ∧
    cs3 = { cs2 with dbDelayedSiacoinOutputs :=
              cs2.dbDelayedSiacoinOutputs.erase (pb.height + MaturityDelay) } := by
  rw [deleteObsoleteDelayedOutputMaps,
    if_neg (show ¬((!cs2.updateDatabase) = true) by simp [hupd]),
    if_neg (show ¬(DiffDirection.revert = DiffDirection.apply) by decide)] at h
  split at h
  · cases h
  next hlen =>
    split at h
    · cases h
    next hmem =>
      cases h
      refine ⟨not_ne_iff.mp hlen, ?_, rfl⟩
      by_contra hx
      exact hmem (by simpa using hx)

/-- A nonempty bucket at `H + MaturityDelay` makes the revert-direction
obsolete-map deletion fail instead of deleting. -/
theorem delObsRevertErr (cs2 : ConsensusSet) (pb : processedBlock)
    (hupd : cs2.updateDatabase = true)
    (hlen : cs2.lenDelayedSiacoinOutputsHeight (pb.height + MaturityDelay) ≠ 0) :
    deleteObsoleteDelayedOutputMaps cs2 pb .revert =
      .error .deletingNonEmptyDelayedMap := by
  rw [deleteObsoleteDelayedOutputMaps,
    if_neg (show ¬((!cs2.updateDatabase) = true) by simp [hupd]),
    if_neg (show ¬(DiffDirection.revert = DiffDirection.apply) by decide),
    if_pos hlen]

end Siad

namespace Siad

/-- C8: a revert-direction `commitDiffSet` at height `H` first recreates
the delayed-output bucket at `H` (empty, and only when `H` exceeds the
maturity delay) in the stage that runs before the node diffs reinsert the
block's delayed outputs, and then deletes the bucket at
`H + MaturityDelay` — which succeeds exactly when that bucket is empty:
the deletion stage sees an empty bucket whenever the commit succeeds, and
errors out instead of deleting whenever the bucket is nonempty. -/
theorem revert_bucket_lifecycle (env : DbEnv) (cs s2 : ConsensusSet)
    (pb : processedBlock) (hupd : cs.updateDatabase = true)
    (h : commitDiffSet env cs pb .revert = .ok s2) :
    (∃ cs1 cs2 cs3,
      createUpcomingDelayedOutputMaps cs pb .revert = .ok cs1 ∧
      (MaturityDelay < pb.height →
        pb.height ∉ cs.dbDelayedSiacoinOutputs ∧
        cs1 = { cs with dbDelayedSiacoinOutputs :=
                  cs.dbDelayedSiacoinOutputs.insert pb.height ∅ }) ∧
      (¬ MaturityDelay < pb.height → cs1 = cs) ∧
      commitNodeDiffs cs1 pb .revert = .ok cs2 ∧
      deleteObsoleteDelayedOutputMaps cs2 pb .revert = .ok cs3 ∧
      cs2.lenDelayedSiacoinOutputsHeight (pb.height + MaturityDelay) = 0 ∧
      (pb.height + MaturityDelay) ∈ cs2.dbDelayedSiacoinOutputs ∧
      cs3 = { cs2 with dbDelayedSiacoinOutputs :=
                cs2.dbDelayedSiacoinOutputs.erase (pb.height + MaturityDelay) } ∧
      updateCurrentPath env cs3 pb .revert = .ok s2) ∧
    (∀ t : ConsensusSet, t.updateDatabase = true →
      t.lenDelayedSiacoinOutputsHeight (pb.height + MaturityDelay) ≠ 0 →
      deleteObsoleteDelayedOutputMaps t pb .revert =
        .error .deletingNonEmptyDelayedMap) := by
  refine ⟨?_, fun t ht hlen => delObsRevertErr t pb ht hlen⟩
  rw [commitDiffSet] at h
  cases hs0 : commitDiffSetSanity cs pb .revert with
  | error e => rw [hs0] at h; cases h
  | ok u =>
  rw [hs0] at h
  dsimp only at h
  cases hc : createUpcomingDelayedOutputMaps cs pb .revert with
  | error e => rw [hc] at h; cases h
  | ok cs1 =>
  rw [hc] at h
  dsimp only at h
  cases hn : commitNodeDiffs cs1 pb .revert with
  | error e => rw [hn] at h; cases h
  | ok cs2 =>
  rw [hn] at h
  dsimp only at h
  cases hd : deleteObsoleteDelayedOutputMaps cs2 pb .revert with
  | error e => rw [hd] at h; cases h
  | ok cs3 =>
  rw [hd] at h
  dsimp only at h
  obtain ⟨hcu1, hcu2⟩ := createUpRevertOk cs cs1 pb hupd hc
  have hupd1 : cs1.updateDatabase = true := by
    by_cases hH : MaturityDelay < pb.height
    · rw [(hcu1 hH).2]
      exact hupd
    · rw [hcu2 hH]
      exact hupd
  have hupd2 : cs2.updateDatabase = true := by
    rw [commitNodeDiffsChar, hupd1] at hn
    obtain ⟨c, _, hcs2⟩ := exceptMapOk _ _ _ hn
    rw [hcs2]
    exact hupd1
  obtain ⟨hlen0, hmem0, hcs3⟩ := delObsRevertOk cs2 cs3 pb hupd2 hd
  exact ⟨cs1, cs2, cs3, rfl, hcu1, hcu2, hn, hd, hlen0, hmem0, hcs3, h⟩

/-- The C8 theorem applied to reverting `wPB` from `wS1`. -/
theorem revert_bucket_lifecycle_witness :
    (∃ cs1 cs2 cs3,
      createUpcomingDelayedOutputMaps wS1 wPB .revert = .ok cs1 ∧
      (MaturityDelay < wPB.height →
        wPB.height ∉ wS1.dbDelayedSiacoinOutputs ∧
        cs1 = { wS1 with dbDelayedSiacoinOutputs :=
                  wS1.dbDelayedSiacoinOutputs.insert wPB.height ∅ }) ∧
      (¬ MaturityDelay < wPB.height → cs1 = wS1) ∧
      commitNodeDiffs cs1 wPB .revert = .ok cs2 ∧
      deleteObsoleteDelayedOutputMaps cs2 wPB .revert = .ok cs3 ∧
      cs2.lenDelayedSiacoinOutputsHeight (wPB.height + MaturityDelay) = 0 ∧
      (wPB.height + MaturityDelay) ∈ cs2.dbDelayedSiacoinOutputs ∧
      cs3 = { cs2 with dbDelayedSiacoinOutputs :=
                cs2.dbDelayedSiacoinOutputs.erase (wPB.height + MaturityDelay) } ∧
      updateCurrentPath DbEnv.ok cs3 wPB .revert = .ok wS2) ∧
    (∀ t : ConsensusSet, t.updateDatabase = true →
      t.lenDelayedSiacoinOutputsHeight (wPB.height + MaturityDelay) ≠ 0 →
      deleteObsoleteDelayedOutputMaps t wPB .revert =
        .error .deletingNonEmptyDelayedMap) :=
  revert_bucket_lifecycle DbEnv.ok wS1 wS2 wPB (by decide) (by decide)

end Siad
